import Mathlib

/-!
# Data-race examples: a verification development

Shallow embedding of the programs under `data-race/`:

* `protected_global_var.go`   : the map `num2Name` guarded by a `sync.RWMutex`
* `unprotected_primitive_var.go` : the `Watchdog`
* `loop_counter_no_race.go`   : the spawning loop passing the counter by value
* `accident_shared_var.go`    : two file writers reporting on the channel `res`
* `synchronized_channel.go`   : send, receive, close on an unbuffered channel

Goroutines are embedded as interleaving transition systems: a state holds the
program counter of every task and the shared memory, a step relation lets one
enabled task take its next atomic action.
-/

namespace DataRace

/-! ## `sync.RWMutex` (library semantics used by `protected_global_var.go`) -/

/-- State of a `sync.RWMutex`: whether a writer holds it and how many readers do. -/
structure RWMutex where
  writer : Bool
  readers : Nat
  deriving DecidableEq, Repr

namespace RWMutex

/-- The mutex returned by `new(sync.RWMutex)`: unlocked. -/
def new : RWMutex := ⟨false, 0⟩

/-- `Lock`: succeeds when nobody holds the mutex; `none` means the caller blocks. -/
def Lock (m : RWMutex) : Option RWMutex :=
  if m.writer = false ∧ m.readers = 0 then some ⟨true, 0⟩ else none

/-- `Unlock`: releases the writer; `none` is the fatal "unlock of unlocked mutex". -/
def Unlock (m : RWMutex) : Option RWMutex :=
  if m.writer = true then some ⟨false, m.readers⟩ else none

/-- `RLock`: succeeds when no writer holds the mutex; `none` means the caller blocks.
The library may also hold a reader back while a writer is waiting, which only
removes interleavings. -/
def RLock (m : RWMutex) : Option RWMutex :=
  if m.writer = false then some ⟨false, m.readers + 1⟩ else none

/-- `RUnlock`: releases one reader; `none` is the fatal "RUnlock of unlocked mutex". -/
def RUnlock (m : RWMutex) : Option RWMutex :=
  if 0 < m.readers then some ⟨m.writer, m.readers - 1⟩ else none

end RWMutex

/-! ## `protected_global_var.go` -/

/-- The Go type `map[int]string`: a key is present with a value or absent. -/
abbrev GoMap := Int → Option String

/-- The map returned by `make(map[int]string)`. -/
def GoMap.make : GoMap := fun _ => none

/-- Map assignment `m[k] = v`. -/
def GoMap.set (m : GoMap) (k : Int) (v : String) : GoMap :=
  fun j => if j = k then some v else m j

/-- Map index expression `m[k]`: the zero value `""` for an absent key. -/
def GoMap.index (m : GoMap) (k : Int) : String :=
  (m k).getD ""

/-- The package-level variables `num2Name` and `lock`. -/
structure Globals where
  num2Name : GoMap
  lock : RWMutex

/-- The package-level variables after initialisation. -/
def Globals.init : Globals := ⟨GoMap.make, RWMutex.new⟩

/-- The package-level variables with map contents `m` and nobody holding the lock,
which is the situation between two calls made one after another. -/
def Globals.idle (m : GoMap) : Globals := ⟨m, RWMutex.new⟩

/-- `SetName`: `lock.Lock()`, `num2Name[num] = name`, deferred `lock.Unlock()`.
`none` when the call cannot complete. -/
def SetName (g : Globals) (num : Int) (name : String) : Option Globals :=
  match g.lock.Lock with
  | none => none
  | some l =>
    let m := g.num2Name.set num name
    match l.Unlock with
    | none => none
    | some l2 => some ⟨m, l2⟩

/-- `GetName`: `lock.RLock()`, evaluate `num2Name[num]`, deferred `lock.RUnlock()`.
Returns the string and the variables afterwards; `none` when the call cannot complete. -/
def GetName (g : Globals) (num : Int) : Option (String × Globals) :=
  match g.lock.RLock with
  | none => none
  | some l =>
    let r := g.num2Name.index num
    match l.RUnlock with
    | none => none
    | some l2 => some (r, ⟨g.num2Name, l2⟩)

/-- A finite sequence of `SetName` calls executed one after another. -/
def SetNames (g : Globals) : List (Int × String) → Option Globals
  | [] => some g
  | (num, name) :: rest =>
    match SetName g num name with
    | none => none
    | some g2 => SetNames g2 rest

/-- The name given by the last call of the sequence whose key is `k`, if any. -/
def lastSet (k : Int) : List (Int × String) → Option String
  | [] => none
  | (num, name) :: rest =>
    match lastSet k rest with
    | some v => some v
    | none => if num = k then some name else none

/-- Map contents after a sequence of assignments. -/
def GoMap.setAll (m : GoMap) : List (Int × String) → GoMap
  | [] => m
  | (num, name) :: rest => GoMap.setAll (m.set num name) rest

/-! ## `unprotected_primitive_var.go` -/

/-- Smallest `int64`. -/
def int64Min : Int := -9223372036854775808

/-- Largest `int64`. -/
def int64Max : Int := 9223372036854775807

/-- Two's-complement wrap of an integer into `int64`. -/
def wrapInt64 (x : Int) : Int := (x + 9223372036854775808) % 18446744073709551616 - 9223372036854775808

/-- The duration `time.Second`, in nanoseconds. -/
def second : Int := 1000000000

/-- `Time.Add` on an instant given as exact nanoseconds since the Unix epoch. -/
def timeAdd (t d : Int) : Int := t + d

/-- `Time.UnixNano`: the instant as an `int64` count of nanoseconds since the epoch. -/
def unixNano (t : Int) : Int := wrapInt64 t

/-- Instants for which `UnixNano` is exact both for the instant itself and for the
instant ten seconds earlier (the documented domain of `UnixNano`). -/
def validClock (now : Int) : Prop := int64Min + 10 * second ≤ now ∧ now ≤ int64Max

instance (now : Int) : Decidable (validClock now) := by
  unfold validClock; infer_instance

/-- The type `Watchdog`: `struct{ last int64 }`. -/
structure Watchdog where
  last : Int
  deriving DecidableEq, Repr

/-- The composite literal `Watchdog{}`: every field has its zero value. -/
def Watchdog.zero : Watchdog := ⟨0⟩

/-- `KeepAlive` executed when the clock reads `now`. -/
def Watchdog.KeepAlive (_w : Watchdog) (now : Int) : Watchdog := ⟨unixNano now⟩

/-- The condition `w.last < time.Now().Add(-10*time.Second).UnixNano()` of `Start`,
evaluated when the clock reads `now`. -/
def Watchdog.stale (w : Watchdog) (now : Int) : Bool :=
  decide (w.last < unixNano (timeAdd now (-10 * second)))

/-- The process running `Start`: still running with the watchdog, or gone through
`os.Exit` with a status code. -/
inductive Proc where
  | running (w : Watchdog)
  | exited (code : Int)
  deriving DecidableEq, Repr

/-- One iteration of the checker loop after its `time.Sleep(time.Second)`, the clock
reading `now`: `os.Exit(1)` when stale, otherwise the loop goes on. -/
def Watchdog.check (w : Watchdog) (now : Int) : Proc :=
  if w.stale now then Proc.exited 1 else Proc.running w

/-- What can happen to a running watchdog: a `KeepAlive` call or one check of the
checker loop, each with the clock reading at that moment. -/
inductive Event where
  | keepAlive (now : Int)
  | check (now : Int)
  deriving DecidableEq, Repr

/-- One event on the process; an exited process has no successor. -/
def Proc.step : Proc → Event → Option Proc
  | Proc.exited _, _ => none
  | Proc.running w, Event.keepAlive now => some (Proc.running (w.KeepAlive now))
  | Proc.running w, Event.check now => some (w.check now)

/-- A sequence of events on the process; events after the exit do not happen. -/
def Proc.run (p : Proc) : List Event → Proc
  | [] => p
  | e :: es =>
    match p.step e with
    | none => p
    | some q => Proc.run q es

/-- `Start`: the checker loop it spawns, run alone (no `KeepAlive` in between),
given the clock readings of its successive checks: the number of the check that
exits (counted from 1) and the clock reading of that check; `none` when no listed
check exits. -/
def Watchdog.Start (w : Watchdog) : List Int → Option (Nat × Int)
  | [] => none
  | now :: rest =>
    if w.stale now then some (1, now)
    else match Watchdog.Start w rest with
      | none => none
      | some (n, t) => some (n + 1, t)

/-- Clock readings of `n` checks of a checker started at `start` whose sleeps last
exactly one second: `start + 1 s, ..., start + n s`. -/
def checkTimes (start : Int) (n : Nat) : List Int :=
  (List.range n).map (fun i => start + ((i : Int) + 1) * second)

/-- The run keeps the watchdog fed: at each check, the most recent `KeepAlive`
before it stored a timestamp at most half a check interval older than the clock
reading of the check. `recent` is the timestamp stored by the most recent
`KeepAlive` so far, if any. -/
def fed (recent : Option Int) : List Event → Prop
  | [] => True
  | Event.keepAlive now :: es => fed (some (unixNano now)) es
  | Event.check now :: es =>
    (∃ t, recent = some t ∧ now - t ≤ second / 2) ∧ fed recent es

/-- Every check of the run is made at an instant in the domain of `UnixNano`. -/
def validChecks : List Event → Prop
  | [] => True
  | Event.keepAlive _ :: es => validChecks es
  | Event.check now :: es => validClock now ∧ validChecks es

/-! ## Interleaving semantics -/

/-- States reachable from `s0` when, at each moment, any task whose next action is
enabled may take it: `step s i` is the state after task `i` acts in `s`, `none`
when task `i` cannot act there. -/
inductive Reach {σ ι : Type} (step : σ → ι → Option σ) (s0 : σ) : σ → Prop where
  | init : Reach step s0 s0
  | next {s s2 : σ} (i : ι) : Reach step s0 s → step s i = some s2 → Reach step s0 s2

/-- Execution of a schedule, the list of the tasks that act one after another;
`none` when a scheduled task cannot act. -/
def exec {σ ι : Type} (step : σ → ι → Option σ) (s : σ) : List ι → Option σ
  | [] => some s
  | i :: rest =>
    match step s i with
    | none => none
    | some s2 => exec step s2 rest

/-! ## `protected_global_var.go`: concurrent calls -/

/-- A call of `SetName` or of `GetName` made by some goroutine. -/
inductive Call where
  | set (num : Int) (name : String)
  | get (num : Int)
  deriving DecidableEq, Repr

/-- Where a goroutine stands in its call: before `Lock`/`RLock`, holding the lock
before the map access, holding the lock after the map access, or returned (the
deferred `Unlock`/`RUnlock` has run). -/
inductive Pc where
  | start
  | held
  | bodyDone
  | returned
  deriving DecidableEq, Repr

/-- A goroutine making one call; `result` is the string `GetName` has read. -/
structure Task where
  call : Call
  pc : Pc
  result : Option String
  deriving DecidableEq, Repr

/-- A goroutine about to make the call. -/
def Task.spawn (c : Call) : Task := ⟨c, Pc.start, none⟩

/-- The next atomic action of a goroutine on the package-level variables; `none`
when it is blocked (the lock is not available) or has returned. -/
def Task.step (g : Globals) (t : Task) : Option (Globals × Task) :=
  match t.call, t.pc with
  | Call.set _ _, Pc.start =>
    match g.lock.Lock with
    | none => none
    | some l => some (⟨g.num2Name, l⟩, ⟨t.call, Pc.held, t.result⟩)
  | Call.set num name, Pc.held =>
    some (⟨g.num2Name.set num name, g.lock⟩, ⟨t.call, Pc.bodyDone, t.result⟩)
  | Call.set _ _, Pc.bodyDone =>
    match g.lock.Unlock with
    | none => none
    | some l => some (⟨g.num2Name, l⟩, ⟨t.call, Pc.returned, t.result⟩)
  | Call.get _, Pc.start =>
    match g.lock.RLock with
    | none => none
    | some l => some (⟨g.num2Name, l⟩, ⟨t.call, Pc.held, t.result⟩)
  | Call.get num, Pc.held =>
    some (g, ⟨t.call, Pc.bodyDone, some (g.num2Name.index num)⟩)
  | Call.get _, Pc.bodyDone =>
    match g.lock.RUnlock with
    | none => none
    | some l => some (⟨g.num2Name, l⟩, ⟨t.call, Pc.returned, t.result⟩)
  | _, Pc.returned => none

/-- The package-level variables together with the goroutines calling into them. -/
structure RegState where
  g : Globals
  tasks : List Task

/-- Goroutine number `i` takes its next action. -/
def RegState.step (s : RegState) (i : Nat) : Option RegState :=
  match s.tasks[i]? with
  | none => none
  | some t =>
    match t.step s.g with
    | none => none
    | some (g2, t2) => some ⟨g2, s.tasks.set i t2⟩

/-- Freshly initialised variables and one goroutine per call, none started. -/
def RegState.init (calls : List Call) : RegState :=
  ⟨Globals.init, calls.map Task.spawn⟩

/-- The goroutine is inside the critical section of `SetName`. -/
def Task.writing (t : Task) : Bool :=
  match t.call, t.pc with
  | Call.set _ _, Pc.held => true
  | Call.set _ _, Pc.bodyDone => true
  | _, _ => false

/-- The goroutine is inside the critical section of `GetName`. -/
def Task.reading (t : Task) : Bool :=
  match t.call, t.pc with
  | Call.get _, Pc.held => true
  | Call.get _, Pc.bodyDone => true
  | _, _ => false

/-- Number of goroutines inside the critical section of `SetName`. -/
def RegState.writersInside (s : RegState) : Nat := s.tasks.countP Task.writing

/-- Number of goroutines inside the critical section of `GetName`. -/
def RegState.readersInside (s : RegState) : Nat := s.tasks.countP Task.reading

/-- Every goroutine has returned from its call. -/
def RegState.allReturned (s : RegState) : Bool := s.tasks.all (fun t => t.pc == Pc.returned)

/-- The two goroutines of `main`: one calls `SetName(1, "Liu Bei")`, the other
`GetName(1)`. The `WaitGroup` of `main` only makes `main` return after both. -/
def mainCalls : List Call := [Call.set 1 "Liu Bei", Call.get 1]

/-- The lock records exactly the goroutines inside a critical section: the writer
flag is set exactly when one goroutine is inside `SetName`, there is never more
than one, the reader count is the number of goroutines inside `GetName`, and
a goroutine inside `SetName` is alone. -/
def RegInv (s : RegState) : Prop :=
  (s.g.lock.writer = true ↔ s.writersInside = 1) ∧ s.writersInside ≤ 1 ∧
  s.g.lock.readers = s.readersInside ∧ (s.writersInside = 1 → s.readersInside = 0)

/-- Number of atomic actions a goroutine at this point still has to take. -/
def Pc.remaining : Pc → Nat
  | Pc.start => 3
  | Pc.held => 2
  | Pc.bodyDone => 1
  | Pc.returned => 0

/-- Number of atomic actions still to be taken by all goroutines together. -/
def RegState.remaining (s : RegState) : Nat :=
  (s.tasks.map (fun t => t.pc.remaining)).sum

/-- What holds of every state of `main`: the map holds nothing or `"Liu Bei"`
under key 1, it holds `"Liu Bei"` once the writer has assigned, and the reader
has read nothing yet, `""` or `"Liu Bei"`, and has read once past its map access. -/
def MainInv (s : RegState) : Prop :=
  ∃ tw tr, s.tasks = [tw, tr] ∧ tw.call = Call.set 1 "Liu Bei" ∧ tr.call = Call.get 1 ∧
    (s.g.num2Name.index 1 = "" ∨ s.g.num2Name.index 1 = "Liu Bei") ∧
    ((tw.pc = Pc.bodyDone ∨ tw.pc = Pc.returned) → s.g.num2Name.index 1 = "Liu Bei") ∧
    (tr.result = none ∨ tr.result = some "" ∨ tr.result = some "Liu Bei") ∧
    ((tr.pc = Pc.bodyDone ∨ tr.pc = Pc.returned) → tr.result ≠ none)

/-- What a run of `main` lets one observe: the string read by each goroutine, the
entry of the map under key 1, and whether all goroutines have returned. -/
def RegState.observe (s : RegState) : List (Option String) × String × Bool :=
  (s.tasks.map Task.result, s.g.num2Name.index 1, s.allReturned)

/-! ## `loop_counter_no_race.go` -/

/-- Where `main` stands: before `wg.Add(n)`, in the `for` loop, in `wg.Wait()`,
or returned. -/
inductive MainPc where
  | add
  | loop
  | wait
  | returned
  deriving DecidableEq, Repr

/-- Where a spawned goroutine stands: before `fmt.Println("j", j)`, before
`wg.Done()`, or finished. -/
inductive WorkerPc where
  | print
  | signal
  | finished
  deriving DecidableEq, Repr

/-- A goroutine spawned by the loop: its parameter `j`, a copy of the loop
counter made by the `go` statement, and where it stands. -/
structure Worker where
  j : Nat
  pc : WorkerPc
  deriving DecidableEq, Repr

/-- The program: the value of `n`, the loop counter `i`, where `main` stands, the
counter of the `WaitGroup`, the goroutines in the order they were spawned, the
numbers printed so far, and whether `wg.Add` or `wg.Done` has panicked on a negative
counter. -/
structure LoopState where
  n : Nat
  i : Nat
  pc : MainPc
  wg : Int
  workers : List Worker
  out : List Nat
  panicked : Bool
  deriving DecidableEq, Repr

/-- The program with `n` set, before `wg.Add(n)`. -/
def LoopState.init (n : Nat) : LoopState := ⟨n, 0, MainPc.add, 0, [], [], false⟩

/-- Two's-complement wrap of an integer into `int32`. -/
def wrapInt32 (x : Int) : Int := (x + 2147483648) % 4294967296 - 2147483648

/-- The counter of a `sync.WaitGroup` after `Add(delta)`: the counter is an `int32`
kept in the high half of a 64-bit word, to which `uint64(delta) << 32` is added,
so the sum wraps. `Add` panics when the new counter is negative. -/
def wgAdd (counter delta : Int) : Int := wrapInt32 (counter + delta)

/-- The next action of `main`: `wg.Add(n)`, which panics if the new counter is
negative; one turn of the loop, which spawns a goroutine with the current value
of `i` as argument and increments `i`, or leaves the loop when `i < n` fails;
`wg.Wait()`, which blocks until the counter is zero. -/
def LoopState.mainStep (s : LoopState) : Option LoopState :=
  match s.pc with
  | MainPc.add =>
    if wgAdd s.wg s.n < 0 then
      some ⟨s.n, s.i, MainPc.add, wgAdd s.wg s.n, s.workers, s.out, true⟩
    else
      some ⟨s.n, 0, MainPc.loop, wgAdd s.wg s.n, s.workers, s.out, s.panicked⟩
  | MainPc.loop =>
    if s.i < s.n then
      some ⟨s.n, s.i + 1, MainPc.loop, s.wg, s.workers ++ [⟨s.i, WorkerPc.print⟩], s.out,
        s.panicked⟩
    else
      some ⟨s.n, s.i, MainPc.wait, s.wg, s.workers, s.out, s.panicked⟩
  | MainPc.wait =>
    if s.wg = 0 then some ⟨s.n, s.i, MainPc.returned, s.wg, s.workers, s.out, s.panicked⟩
    else none
  | MainPc.returned => none

/-- The next action of the goroutine spawned `k`-th (counted from 0): print its
own `j`, then `wg.Done()`, which is `wg.Add(-1)` and panics if the new counter is
negative. -/
def LoopState.workerStep (s : LoopState) (k : Nat) : Option LoopState :=
  match s.workers[k]? with
  | none => none
  | some w =>
    match w.pc with
    | WorkerPc.print =>
      some ⟨s.n, s.i, s.pc, s.wg, s.workers.set k ⟨w.j, WorkerPc.signal⟩, s.out ++ [w.j],
        s.panicked⟩
    | WorkerPc.signal =>
      if wgAdd s.wg (-1) < 0 then
        some ⟨s.n, s.i, s.pc, wgAdd s.wg (-1), s.workers, s.out, true⟩
      else
        some ⟨s.n, s.i, s.pc, wgAdd s.wg (-1), s.workers.set k ⟨w.j, WorkerPc.finished⟩,
          s.out, s.panicked⟩
    | WorkerPc.finished => none

/-- One action of the program: `none` selects `main`, `some k` the goroutine
spawned `k`-th. Nothing runs after a panic or after `main` has returned. -/
def LoopState.step (s : LoopState) (tid : Option Nat) : Option LoopState :=
  if s.panicked = true ∨ s.pc = MainPc.returned then none
  else
    match tid with
    | none => s.mainStep
    | some k => s.workerStep k

/-- Number of goroutines that have called `wg.Done()`. -/
def LoopState.doneCount (s : LoopState) : Nat :=
  s.workers.countP (fun w => w.pc == WorkerPc.finished)

/-- Number of actions a goroutine at this point still has to take. -/
def WorkerPc.remaining : WorkerPc → Nat
  | WorkerPc.print => 2
  | WorkerPc.signal => 1
  | WorkerPc.finished => 0

/-- Number of actions the whole program still has to take. -/
def LoopState.remaining (s : LoopState) : Nat :=
  (match s.pc with
    | MainPc.add => s.n + 3 + 2 * s.n
    | MainPc.loop => (s.n - s.i) + 2 + 2 * (s.n - s.i)
    | MainPc.wait => 1
    | MainPc.returned => 0)
  + (s.workers.map (fun w => w.pc.remaining)).sum

/-- What holds of every state of the program when `n` fits the `int32` counter of
the `WaitGroup`. -/
def LoopInv (n : Nat) (s : LoopState) : Prop :=
  n < 2147483648 ∧ s.n = n ∧ s.panicked = false ∧ s.i ≤ n ∧ s.workers.length = s.i ∧
  (s.pc = MainPc.add → s.i = 0 ∧ s.wg = 0) ∧
  (s.pc ≠ MainPc.add → s.wg = (n : Int) - (s.doneCount : Int)) ∧
  ((s.pc = MainPc.wait ∨ s.pc = MainPc.returned) → s.i = n) ∧
  (s.pc = MainPc.returned → s.doneCount = n) ∧
  (∀ (k : Nat) (w : Worker), s.workers[k]? = some w → w.j = k) ∧
  (∀ x : Nat, s.out.count x =
    match s.workers[x]? with
    | some w => if w.pc = WorkerPc.print then 0 else 1
    | none => 0)

/-- A schedule of the program for `n = 5`: `main` spawns the five goroutines and
leaves the loop, the goroutines run in the order 2, 0, 1, 4, 3, `main` returns. -/
def loopSchedule : List (Option Nat) :=
  [none, none, none, none, none, none, none,
   some 2, some 2, some 0, some 0, some 1, some 1, some 4, some 4, some 3, some 3, none]

/-- The state in which the schedule `loopSchedule` ends. -/
def loopFinal : LoopState :=
  ⟨5, 5, MainPc.returned, 0,
    [⟨0, WorkerPc.finished⟩, ⟨1, WorkerPc.finished⟩, ⟨2, WorkerPc.finished⟩,
     ⟨3, WorkerPc.finished⟩, ⟨4, WorkerPc.finished⟩],
    [2, 0, 1, 4, 3], false⟩

/-! ## `synchronized_channel.go` -/

/-- Where `main` stands: before the `go` statement, at the receive `<-c`, at
`close(c)`, or returned. -/
inductive SyncMainPc where
  | spawn
  | recv
  | close
  | returned
  deriving DecidableEq, Repr

/-- Where the spawned goroutine stands: not spawned yet, blocked in the send
`c <- struct{}{}`, send matched by a receive but the goroutine not yet resumed,
or finished. -/
inductive SenderPc where
  | notSpawned
  | sending
  | handedOff
  | finished
  deriving DecidableEq, Repr

/-- The run-time panics of channel operations. -/
inductive ChanFault where
  | sendOnClosed
  | closeOfClosed
  deriving DecidableEq, Repr

/-- The two tasks of the program. -/
inductive SyncTid where
  | main
  | sender
  deriving DecidableEq, Repr

/-- The program: where both tasks stand, whether the unbuffered channel `c` is
closed, the value `main` has received, and the panic raised, if any. The payload
type is a parameter; in the source it is `struct{}`. -/
structure SyncState (α : Type) where
  mainPc : SyncMainPc
  sender : SenderPc
  closed : Bool
  received : Option α
  fault : Option ChanFault
  deriving DecidableEq, Repr

/-- The program before the `go` statement, with `c` open. -/
def SyncState.init (α : Type) : SyncState α :=
  ⟨SyncMainPc.spawn, SenderPc.notSpawned, false, none, none⟩

/-- The handoff on the unbuffered channel: the blocked sender and the receiver
meet, the receiver gets the payload `p`, the send is complete. -/
def SyncState.handoff {α : Type} (p : α) (s : SyncState α) : SyncState α :=
  ⟨SyncMainPc.close, SenderPc.handedOff, s.closed, some p, s.fault⟩

/-- The next action of `main`. A receive on a closed channel yields the zero
value at once; on an open channel it blocks until a sender is there. `close`
on a closed channel panics. -/
def SyncState.mainStep {α : Type} [Inhabited α] (p : α) (s : SyncState α) :
    Option (SyncState α) :=
  match s.mainPc with
  | SyncMainPc.spawn => some ⟨SyncMainPc.recv, SenderPc.sending, s.closed, s.received, s.fault⟩
  | SyncMainPc.recv =>
    if s.closed = true then
      some ⟨SyncMainPc.close, s.sender, s.closed, some default, s.fault⟩
    else if s.sender = SenderPc.sending then some (s.handoff p)
    else none
  | SyncMainPc.close =>
    if s.closed = true then
      some ⟨s.mainPc, s.sender, s.closed, s.received, some ChanFault.closeOfClosed⟩
    else some ⟨SyncMainPc.returned, s.sender, true, s.received, s.fault⟩
  | SyncMainPc.returned => none

/-- The next action of the spawned goroutine. A send on a closed channel panics;
on the open unbuffered channel it blocks until `main` is at its receive. -/
def SyncState.senderStep {α : Type} (p : α) (s : SyncState α) : Option (SyncState α) :=
  match s.sender with
  | SenderPc.notSpawned => none
  | SenderPc.sending =>
    if s.closed = true then
      some ⟨s.mainPc, s.sender, s.closed, s.received, some ChanFault.sendOnClosed⟩
    else if s.mainPc = SyncMainPc.recv then some (s.handoff p)
    else none
  | SenderPc.handedOff => some ⟨s.mainPc, SenderPc.finished, s.closed, s.received, s.fault⟩
  | SenderPc.finished => none

/-- One action of the program sending payload `p`. Nothing runs after a panic or
after `main` has returned. -/
def SyncState.step {α : Type} [Inhabited α] (p : α) (s : SyncState α) (tid : SyncTid) :
    Option (SyncState α) :=
  if s.fault ≠ none ∨ s.mainPc = SyncMainPc.returned then none
  else
    match tid with
    | SyncTid.main => s.mainStep p
    | SyncTid.sender => s.senderStep p

/-- Number of actions the program still has to take. -/
def SyncState.remaining {α : Type} (s : SyncState α) : Nat :=
  (match s.mainPc with
    | SyncMainPc.spawn => 4
    | SyncMainPc.recv => 3
    | SyncMainPc.close => 1
    | SyncMainPc.returned => 0)
  + (match s.sender with
    | SenderPc.handedOff => 1
    | _ => 0)

/-- What holds of every state of the program sending payload `p`. -/
def SyncInv {α : Type} (p : α) (s : SyncState α) : Prop :=
  s.fault = none ∧
  (s.mainPc = SyncMainPc.spawn →
    s.sender = SenderPc.notSpawned ∧ s.closed = false ∧ s.received = none) ∧
  (s.mainPc = SyncMainPc.recv →
    s.sender = SenderPc.sending ∧ s.closed = false ∧ s.received = none) ∧
  (s.mainPc = SyncMainPc.close →
    (s.sender = SenderPc.handedOff ∨ s.sender = SenderPc.finished) ∧ s.closed = false ∧
      s.received = some p) ∧
  (s.mainPc = SyncMainPc.returned →
    (s.sender = SenderPc.handedOff ∨ s.sender = SenderPc.finished) ∧ s.closed = true ∧
      s.received = some p)

/-! ## `accident_shared_var.go` -/

/-- A value of type `error`: `nil`, or an error with its message. -/
abbrev GoError := Option String

/-- What the file system answers: the error results of `os.Create("file1")`,
`f1.Write(data)`, `os.Create("file2")` and `f2.Write(data)`, the writes being the
results on a file that was created. -/
structure Outcomes where
  create1 : GoError
  write1 : GoError
  create2 : GoError
  write2 : GoError
  deriving DecidableEq, Repr

/-- The error of a method called on a nil `*os.File` (`os.ErrInvalid`). -/
def errInvalid : GoError := some "invalid argument"

/-- The error result of the call `f1.Write(data)`: `os.Create` returns a nil file
together with a non-nil error, and `Write` on a nil file fails with `os.ErrInvalid`. -/
def Outcomes.writeResult1 (o : Outcomes) : GoError :=
  if o.create1 = none then o.write1 else errInvalid

/-- The error result of the call `f2.Write(data)`. -/
def Outcomes.writeResult2 (o : Outcomes) : GoError :=
  if o.create2 = none then o.write2 else errInvalid

/-- Where `main` stands: at `os.Create("file1")`, at the first test `err != nil`,
at the send `res <- err` of the first `if`, at `os.Create("file2")`, at the second
test `err != nil`, at the send of the second `if`, at the `go` statement of the
receiving goroutine, in the final `time.Sleep`, or returned (the process has
exited). -/
inductive FilesMainPc where
  | create1
  | test1
  | send1
  | create2
  | test2
  | send2
  | spawnConsumer
  | sleep
  | returned
  deriving DecidableEq, Repr

/-- Where a writing goroutine stands: not spawned, at `_, err = f.Write(data)`, at
`res <- err`, at `f.Close()`, or finished. -/
inductive WriterPc where
  | notSpawned
  | write
  | send
  | close
  | finished
  deriving DecidableEq, Repr

/-- The four places of the program that send on `res`: the two `if` branches of
`main` and the two writing goroutines. -/
inductive Sender where
  | main1
  | main2
  | writer1
  | writer2
  deriving DecidableEq, Repr

/-- The place sends for `file1` (otherwise for `file2`). -/
def Sender.first : Sender → Bool
  | Sender.main1 => true
  | Sender.writer1 => true
  | Sender.main2 => false
  | Sender.writer2 => false

/-- The tasks of the program. -/
inductive FilesTid where
  | main
  | writer1
  | writer2
  | consumer
  deriving DecidableEq, Repr

/-- The program: where `main` and the two writing goroutines stand, the variable
`err` of `main` (declared at the first `:=`, assigned again by the second, and
captured by both function literals), whether the receiving goroutine runs, the
buffer of the channel `res` (capacity 2), the values the `range` loop has
received, and a record of every send: the place that sent and the value. -/
structure FilesState where
  mainPc : FilesMainPc
  err : GoError
  w1 : WriterPc
  w2 : WriterPc
  consumer : Bool
  res : List GoError
  received : List GoError
  sentLog : List (Sender × GoError)
  deriving DecidableEq, Repr

/-- The program at its start. -/
def FilesState.init : FilesState :=
  ⟨FilesMainPc.create1, none, WriterPc.notSpawned, WriterPc.notSpawned, false, [], [], []⟩

/-- Capacity of the channel made by `make(chan error, 2)`. -/
def resCap : Nat := 2

/-- The next action of `main`. The test `err != nil` and the send `res <- err`
each read the variable `err` at their own moment. A send blocks while the buffer
is full. The final `time.Sleep` ends at a moment the model leaves open (durations
are not modelled); `main` then returns and the process exits. -/
def FilesState.mainStep (o : Outcomes) (s : FilesState) : Option FilesState :=
  match s.mainPc with
  | FilesMainPc.create1 =>
    some ⟨FilesMainPc.test1, o.create1, s.w1, s.w2, s.consumer, s.res, s.received, s.sentLog⟩
  | FilesMainPc.test1 =>
    if s.err ≠ none then
      some ⟨FilesMainPc.send1, s.err, s.w1, s.w2, s.consumer, s.res, s.received, s.sentLog⟩
    else
      some ⟨FilesMainPc.create2, s.err, WriterPc.write, s.w2, s.consumer, s.res, s.received,
        s.sentLog⟩
  | FilesMainPc.send1 =>
    if s.res.length < resCap then
      some ⟨FilesMainPc.create2, s.err, s.w1, s.w2, s.consumer, s.res ++ [s.err], s.received,
        s.sentLog ++ [(Sender.main1, s.err)]⟩
    else none
  | FilesMainPc.create2 =>
    some ⟨FilesMainPc.test2, o.create2, s.w1, s.w2, s.consumer, s.res, s.received, s.sentLog⟩
  | FilesMainPc.test2 =>
    if s.err ≠ none then
      some ⟨FilesMainPc.send2, s.err, s.w1, s.w2, s.consumer, s.res, s.received, s.sentLog⟩
    else
      some ⟨FilesMainPc.spawnConsumer, s.err, s.w1, WriterPc.write, s.consumer, s.res,
        s.received, s.sentLog⟩
  | FilesMainPc.send2 =>
    if s.res.length < resCap then
      some ⟨FilesMainPc.spawnConsumer, s.err, s.w1, s.w2, s.consumer, s.res ++ [s.err],
        s.received, s.sentLog ++ [(Sender.main2, s.err)]⟩
    else none
  | FilesMainPc.spawnConsumer =>
    some ⟨FilesMainPc.sleep, s.err, s.w1, s.w2, true, s.res, s.received, s.sentLog⟩
  | FilesMainPc.sleep =>
    some ⟨FilesMainPc.returned, s.err, s.w1, s.w2, s.consumer, s.res, s.received, s.sentLog⟩
  | FilesMainPc.returned => none

/-- The next action of the goroutine writing `file1`: assign the result of
`f1.Write(data)` to the captured `err`; send the current value of `err` on `res`;
`f1.Close()`. -/
def FilesState.writer1Step (o : Outcomes) (s : FilesState) : Option FilesState :=
  match s.w1 with
  | WriterPc.notSpawned => none
  | WriterPc.write =>
    some ⟨s.mainPc, o.writeResult1, WriterPc.send, s.w2, s.consumer, s.res, s.received,
      s.sentLog⟩
  | WriterPc.send =>
    if s.res.length < resCap then
      some ⟨s.mainPc, s.err, WriterPc.close, s.w2, s.consumer, s.res ++ [s.err], s.received,
        s.sentLog ++ [(Sender.writer1, s.err)]⟩
    else none
  | WriterPc.close =>
    some ⟨s.mainPc, s.err, WriterPc.finished, s.w2, s.consumer, s.res, s.received, s.sentLog⟩
  | WriterPc.finished => none

/-- The next action of the goroutine writing `file2`. -/
def FilesState.writer2Step (o : Outcomes) (s : FilesState) : Option FilesState :=
  match s.w2 with
  | WriterPc.notSpawned => none
  | WriterPc.write =>
    some ⟨s.mainPc, o.writeResult2, s.w1, WriterPc.send, s.consumer, s.res, s.received,
      s.sentLog⟩
  | WriterPc.send =>
    if s.res.length < resCap then
      some ⟨s.mainPc, s.err, s.w1, WriterPc.close, s.consumer, s.res ++ [s.err], s.received,
        s.sentLog ++ [(Sender.writer2, s.err)]⟩
    else none
  | WriterPc.close =>
    some ⟨s.mainPc, s.err, s.w1, WriterPc.finished, s.consumer, s.res, s.received, s.sentLog⟩
  | WriterPc.finished => none

/-- The next turn of `for err := range res`: take the oldest value out of the
buffer; blocks while the buffer is empty (the channel is never closed). -/
def FilesState.consumerStep (s : FilesState) : Option FilesState :=
  if s.consumer = true then
    match s.res with
    | [] => none
    | v :: rest =>
      some ⟨s.mainPc, s.err, s.w1, s.w2, s.consumer, rest, s.received ++ [v], s.sentLog⟩
  else none

/-- One action of the program under the file-system answers `o`. Nothing runs
after `main` has returned: the process has exited. -/
def FilesState.step (o : Outcomes) (s : FilesState) (tid : FilesTid) : Option FilesState :=
  if s.mainPc = FilesMainPc.returned then none
  else
    match tid with
    | FilesTid.main => s.mainStep o
    | FilesTid.writer1 => s.writer1Step o
    | FilesTid.writer2 => s.writer2Step o
    | FilesTid.consumer => s.consumerStep

/-- Values sent for `file1` so far. -/
def FilesState.sent1 (s : FilesState) : List GoError :=
  (s.sentLog.filter (fun e => e.1.first)).map Prod.snd

/-- Values sent for `file2` so far. -/
def FilesState.sent2 (s : FilesState) : List GoError :=
  (s.sentLog.filter (fun e => !e.1.first)).map Prod.snd

/-- All values sent so far, in the order of the sends. -/
def FilesState.sent (s : FilesState) : List GoError := s.sentLog.map Prod.snd

/-- The other goroutines have nothing left to do: `main` is in its sleep or has
returned, every writing goroutine that was spawned has finished, and the buffer
is empty. -/
def FilesState.quiescent (s : FilesState) : Bool :=
  (s.mainPc == FilesMainPc.sleep || s.mainPc == FilesMainPc.returned) &&
  (s.w1 == WriterPc.notSpawned || s.w1 == WriterPc.finished) &&
  (s.w2 == WriterPc.notSpawned || s.w2 == WriterPc.finished) &&
  s.res.isEmpty

/-- `main` has not yet passed the first `if`. -/
def FilesMainPc.beforeSecond (pc : FilesMainPc) : Bool :=
  pc == FilesMainPc.create1 || pc == FilesMainPc.test1 || pc == FilesMainPc.send1

/-- `main` has passed the second `if`. -/
def FilesMainPc.afterSecond (pc : FilesMainPc) : Bool :=
  pc == FilesMainPc.spawnConsumer || pc == FilesMainPc.sleep || pc == FilesMainPc.returned

/-- Number of values that must have been sent for `file1`, read off where `main`
and the first writing goroutine stand. -/
def FilesState.sentCount1 (s : FilesState) : Nat :=
  match s.w1 with
  | WriterPc.notSpawned => if s.mainPc.beforeSecond = true then 0 else 1
  | WriterPc.write => 0
  | WriterPc.send => 0
  | WriterPc.close => 1
  | WriterPc.finished => 1

/-- Number of values that must have been sent for `file2`, read off where `main`
and the second writing goroutine stand. -/
def FilesState.sentCount2 (s : FilesState) : Nat :=
  match s.w2 with
  | WriterPc.notSpawned => if s.mainPc.afterSecond = true then 1 else 0
  | WriterPc.write => 0
  | WriterPc.send => 0
  | WriterPc.close => 1
  | WriterPc.finished => 1

/-- Number of sends made for `file1` so far. -/
def FilesState.count1 (s : FilesState) : Nat := s.sentLog.countP (fun e => e.1.first)

/-- Number of sends made for `file2` so far. -/
def FilesState.count2 (s : FilesState) : Nat := s.sentLog.countP (fun e => !e.1.first)

/-- What holds of every state of the program. -/
def FilesInv (s : FilesState) : Prop :=
  s.sent = s.received ++ s.res ∧
  s.count1 = s.sentCount1 ∧ s.count2 = s.sentCount2 ∧
  (s.mainPc.beforeSecond = true → s.w1 = WriterPc.notSpawned) ∧
  (s.mainPc.afterSecond = false → s.w2 = WriterPc.notSpawned) ∧
  ((s.mainPc = FilesMainPc.sleep ∨ s.mainPc = FilesMainPc.returned) → s.consumer = true)

/-- File-system answers under which the goroutine of `file1` sends a value that is
not the result of its own write: both files are created, the write to `file1`
fails, the write to `file2` succeeds. -/
def sharedErrOutcomes : Outcomes := ⟨none, some "disk full", none, none⟩

/-- A schedule of the program: `main` creates `file1` and spawns its goroutine,
which performs its write; `main` then creates `file2`, assigning `err` again, and
spawns the second goroutine; the first goroutine sends. -/
def sharedErrSchedule : List FilesTid :=
  [FilesTid.main, FilesTid.main, FilesTid.writer1, FilesTid.main, FilesTid.main,
   FilesTid.writer1]

/-- File-system answers of a run in which everything succeeds. -/
def allOkOutcomes : Outcomes := ⟨none, none, none, none⟩

/-- A schedule of the program in which the sleep of `main` ends too early: `main`
creates both files, spawns the three goroutines and goes to sleep; the goroutine
of `file2` writes and sends; `main` returns while the goroutine of `file1` is
still in its write and the `range` loop has received nothing. -/
def earlyExitSchedule : List FilesTid :=
  [FilesTid.main, FilesTid.main, FilesTid.main, FilesTid.main, FilesTid.main,
   FilesTid.writer2, FilesTid.writer2, FilesTid.main]

/-- The state in which the schedule `earlyExitSchedule` ends. -/
def earlyExitFinal : FilesState :=
  ⟨FilesMainPc.returned, none, WriterPc.write, WriterPc.close, true, [none], [],
    [(Sender.writer2, none)]⟩

/-! # Theorems -/

/-! ### Sequential behaviour of the registry -/

theorem SetName_idle (m : GoMap) (num : Int) (name : String) :
    SetName (Globals.idle m) num name = some (Globals.idle (m.set num name)) := by
  simp [SetName, Globals.idle, RWMutex.new, RWMutex.Lock, RWMutex.Unlock]

theorem GetName_idle (m : GoMap) (num : Int) :
    GetName (Globals.idle m) num = some (m.index num, Globals.idle m) := by
  simp [GetName, Globals.idle, RWMutex.new, RWMutex.RLock, RWMutex.RUnlock]

theorem SetNames_idle (calls : List (Int × String)) (m : GoMap) :
    SetNames (Globals.idle m) calls = some (Globals.idle (m.setAll calls)) := by
  induction calls generalizing m with
  | nil => rfl
  | cons c rest ih =>
    obtain ⟨num, name⟩ := c
    simp only [SetNames, SetName_idle, GoMap.setAll]
    exact ih _

theorem setAll_index (calls : List (Int × String)) (m : GoMap) (k : Int) :
    (m.setAll calls).index k = (lastSet k calls).getD (m.index k) := by
  induction calls generalizing m with
  | nil => rfl
  | cons c rest ih =>
    obtain ⟨num, name⟩ := c
    simp only [GoMap.setAll, lastSet]
    rw [ih]
    cases h : lastSet k rest with
    | some v => simp
    | none =>
      by_cases hk : num = k
      · subst hk
        simp [GoMap.index, GoMap.set]
      · have hk2 : ¬ k = num := fun e => hk e.symm
        simp [GoMap.index, GoMap.set, hk, hk2]

/-- C1: for every initial map contents and every finite sequence of `SetName`
calls executed one after another, the sequence completes, and a following
`GetName k` returns the name of the last call with key `k`, or, when no call
has key `k`, what `GetName k` returned before the sequence. -/
theorem C1_last_set_wins (m : GoMap) (calls : List (Int × String)) (k : Int) :
    ∃ g r0 g0 r g1,
      SetNames (Globals.idle m) calls = some g ∧
      GetName (Globals.idle m) k = some (r0, g0) ∧
      GetName g k = some (r, g1) ∧
      r = (match lastSet k calls with
           | some name => name
           | none => r0) := by
  refine ⟨_, _, _, _, _, SetNames_idle calls m, GetName_idle m k, GetName_idle _ k, ?_⟩
  rw [setAll_index]
  cases lastSet k calls <;> rfl


/-! ### The watchdog -/

theorem wrapInt64_eq (x : Int) (h1 : int64Min ≤ x) (h2 : x ≤ int64Max) : wrapInt64 x = x := by
  unfold wrapInt64
  unfold int64Min at h1
  unfold int64Max at h2
  omega

theorem threshold_eq (c : Int) (hc : validClock c) :
    unixNano (timeAdd c (-10 * second)) = c - 10000000000 := by
  unfold validClock second at hc
  unfold unixNano timeAdd second
  rw [wrapInt64_eq]
  · omega
  · unfold int64Min at *; omega
  · unfold int64Max at *; omega

theorem stale_iff (t c : Int) (hc : validClock c) :
    (Watchdog.mk t).stale c = true ↔ t < c - 10000000000 := by
  unfold Watchdog.stale
  rw [threshold_eq c hc]
  simp

/-- C10: a check at clock reading `c` on stored timestamp `t` exits the process
if and only if `t < c - 10_000_000_000`; a keep-alive exactly 10 s old is not
stale, one 10 s and 1 ns old is; an exited process has no successor; a check that
does not exit leaves the stored timestamp unchanged. -/
theorem C10_check_threshold (t c : Int) (hc : validClock c) :
    ((Proc.running ⟨t⟩).step (Event.check c) = some (Proc.exited 1) ↔ t < c - 10000000000) ∧
    ((Proc.running ⟨t⟩).step (Event.check c) = some (Proc.exited 1) ∨
      (Proc.running ⟨t⟩).step (Event.check c) = some (Proc.running ⟨t⟩)) ∧
    (Proc.running ⟨c - 10000000000⟩).step (Event.check c)
      = some (Proc.running ⟨c - 10000000000⟩) ∧
    (Proc.running ⟨c - 10000000001⟩).step (Event.check c) = some (Proc.exited 1) ∧
    (∀ code e, (Proc.exited code).step e = none) := by
  have key : ∀ u : Int, (Proc.running ⟨u⟩).step (Event.check c)
      = if u < c - 10000000000 then some (Proc.exited 1) else some (Proc.running ⟨u⟩) := by
    intro u
    by_cases hu : u < c - 10000000000
    · simp [Proc.step, Watchdog.check, (stale_iff u c hc).2 hu, hu]
    · have : (Watchdog.mk u).stale c = false := by
        cases h : (Watchdog.mk u).stale c with
        | false => rfl
        | true => exact absurd ((stale_iff u c hc).1 h) hu
      simp [Proc.step, Watchdog.check, this, hu]
  refine ⟨?_, ?_, ?_, ?_, ?_⟩
  · rw [key]
    by_cases hu : t < c - 10000000000 <;> simp [hu]
  · rw [key]
    by_cases hu : t < c - 10000000000 <;> simp [hu]
  · rw [key]; simp
  · rw [key]; simp
  · intro code e; rfl

theorem C10_check_threshold_witness :
    validClock 1700000000000000000 ∧
    (((Proc.running ⟨1699999990000000000⟩).step (Event.check 1700000000000000000)
        = some (Proc.exited 1) ↔ (1699999990000000000 : Int) < 1700000000000000000 - 10000000000) ∧
    ((Proc.running ⟨1699999990000000000⟩).step (Event.check 1700000000000000000)
        = some (Proc.exited 1) ∨
      (Proc.running ⟨1699999990000000000⟩).step (Event.check 1700000000000000000)
        = some (Proc.running ⟨1699999990000000000⟩)) ∧
    (Proc.running ⟨1700000000000000000 - 10000000000⟩).step (Event.check 1700000000000000000)
      = some (Proc.running ⟨1700000000000000000 - 10000000000⟩) ∧
    (Proc.running ⟨1700000000000000000 - 10000000001⟩).step (Event.check 1700000000000000000)
      = some (Proc.exited 1) ∧
    (∀ code e, (Proc.exited code).step e = none)) :=
  ⟨by decide, C10_check_threshold 1699999990000000000 1700000000000000000 (by decide)⟩

theorem fed_run (events : List Event) (w : Watchdog) (recent : Option Int)
    (hrec : ∀ t, recent = some t → w.last = t)
    (hfed : fed recent events) (hv : validChecks events) :
    ∃ w2, (Proc.running w).run events = Proc.running w2 := by
  induction events generalizing w recent with
  | nil => exact ⟨w, rfl⟩
  | cons e es ih =>
    cases e with
    | keepAlive now =>
      simp only [Proc.run, Proc.step]
      exact ih (w.KeepAlive now) (some (unixNano now))
        (fun t ht => by simpa [Watchdog.KeepAlive] using ht) hfed hv
    | check now =>
      obtain ⟨⟨t, ht, hle⟩, hrest⟩ := hfed
      obtain ⟨hc, hvrest⟩ := hv
      have hlast : w.last = t := hrec t ht
      have hns : (Watchdog.mk w.last).stale now = false := by
        cases h : (Watchdog.mk w.last).stale now with
        | false => rfl
        | true =>
          have := (stale_iff w.last now hc).1 h
          unfold second at hle
          omega
      have hstep : (Proc.running w).step (Event.check now) = some (Proc.running w) := by
        cases w with
        | mk l => simp [Proc.step, Watchdog.check, hns]
      simp only [Proc.run, hstep]
      exact ih w recent hrec hrest hvrest

/-- C4: in every run in which, at each check, the most recent `KeepAlive` stored
a timestamp at most half a check interval older than the clock reading of the
check, no check finds the watchdog stale: after any number of events the
process is still running. -/
theorem C4_fed_never_exits (w : Watchdog) (events : List Event)
    (hfed : fed none events) (hv : validChecks events) :
    ∃ w2, (Proc.running w).run events = Proc.running w2 :=
  fed_run events w none (fun _ h => by cases h) hfed hv

theorem C4_fed_never_exits_witness :
    fed none [Event.keepAlive 1700000000000000000, Event.check 1700000000400000000,
      Event.keepAlive 1700000000900000000, Event.check 1700000001400000000] ∧
    validChecks [Event.keepAlive 1700000000000000000, Event.check 1700000000400000000,
      Event.keepAlive 1700000000900000000, Event.check 1700000001400000000] ∧
    ∃ w2, (Proc.running Watchdog.zero).run
      [Event.keepAlive 1700000000000000000, Event.check 1700000000400000000,
       Event.keepAlive 1700000000900000000, Event.check 1700000001400000000]
      = Proc.running w2 :=
  have hfed : fed none [Event.keepAlive 1700000000000000000, Event.check 1700000000400000000,
      Event.keepAlive 1700000000900000000, Event.check 1700000001400000000] :=
    ⟨⟨_, rfl, by decide⟩, ⟨_, rfl, by decide⟩, trivial⟩
  have hv : validChecks [Event.keepAlive 1700000000000000000, Event.check 1700000000400000000,
      Event.keepAlive 1700000000900000000, Event.check 1700000001400000000] :=
    ⟨by decide, by decide, trivial⟩
  ⟨hfed, hv, C4_fed_never_exits Watchdog.zero _ hfed hv⟩

/-- C3 (evaluation of the code): a watchdog created as `Watchdog{}` on which
`KeepAlive` is never called, started when the clock reads 1 700 000 000 s after
the epoch, exits at its first check, one second after the start: the stored
timestamp is 0 and `0 < now - 10 s` holds at once. No check between 10 s and
11 s after the start is ever reached. -/
theorem C3_unfed_exits_at_first_check :
    Watchdog.zero.Start (checkTimes 1700000000000000000 11)
      = some (1, 1700000000000000000 + 1 * second) ∧
    (Proc.running Watchdog.zero).step (Event.check (1700000000000000000 + 1 * second))
      = some (Proc.exited 1) ∧
    ¬ (1700000000000000000 + 10 * second ≤ 1700000000000000000 + 1 * second) := by
  decide

/-! ### The guarded registry under concurrent calls -/

theorem countP_set_lookup {α : Type} (p : α → Bool) (l : List α) (i : Nat) (t t2 : α)
    (h : l[i]? = some t) :
    (l.set i t2).countP p + (if p t = true then 1 else 0)
      = l.countP p + (if p t2 = true then 1 else 0) := by
  obtain ⟨hi, rfl⟩ := List.getElem?_eq_some.1 h
  have h1 := List.countP_set p l i t2 hi
  have h2 := List.boole_getElem_le_countP p l i hi
  omega

theorem RegInv_init (calls : List Call) : RegInv (RegState.init calls) := by
  have hw : (RegState.init calls).writersInside = 0 := by
    simp [RegState.init, RegState.writersInside, List.countP_eq_zero, Task.spawn, Task.writing]
  have hr : (RegState.init calls).readersInside = 0 := by
    simp [RegState.init, RegState.readersInside, List.countP_eq_zero, Task.spawn, Task.reading]
  unfold RegInv
  rw [hw, hr]
  simp [RegState.init, Globals.init, RWMutex.new]

theorem Task.step_effect (g g2 : Globals) (t t2 : Task) (h : t.step g = some (g2, t2)) :
    (g.lock.writer = false ∧ g.lock.readers = 0 ∧ g2.lock.writer = true ∧ g2.lock.readers = 0 ∧
      t.writing = false ∧ t2.writing = true ∧ t.reading = false ∧ t2.reading = false) ∨
    (g2.lock = g.lock ∧ t2.writing = t.writing ∧ t2.reading = t.reading) ∨
    (g.lock.writer = true ∧ g2.lock.writer = false ∧ g2.lock.readers = g.lock.readers ∧
      t.writing = true ∧ t2.writing = false ∧ t.reading = false ∧ t2.reading = false) ∨
    (g.lock.writer = false ∧ g2.lock.writer = false ∧ g2.lock.readers = g.lock.readers + 1 ∧
      t.writing = false ∧ t2.writing = false ∧ t.reading = false ∧ t2.reading = true) ∨
    (0 < g.lock.readers ∧ g2.lock.writer = g.lock.writer ∧
      g2.lock.readers = g.lock.readers - 1 ∧
      t.writing = false ∧ t2.writing = false ∧ t.reading = true ∧ t2.reading = false) := by
  obtain ⟨c, pc, res⟩ := t
  cases c <;> cases pc <;> simp only [Task.step] at h
  · unfold RWMutex.Lock at h
    by_cases hc : g.lock.writer = false ∧ g.lock.readers = 0
    · rw [if_pos hc] at h
      simp only [Option.some.injEq, Prod.mk.injEq] at h
      obtain ⟨rfl, rfl⟩ := h
      exact Or.inl ⟨hc.1, hc.2, rfl, rfl, rfl, rfl, rfl, rfl⟩
    · rw [if_neg hc] at h; simp at h
  · simp only [Option.some.injEq, Prod.mk.injEq] at h
    obtain ⟨rfl, rfl⟩ := h
    exact Or.inr (Or.inl ⟨rfl, rfl, rfl⟩)
  · unfold RWMutex.Unlock at h
    by_cases hc : g.lock.writer = true
    · rw [if_pos hc] at h
      simp only [Option.some.injEq, Prod.mk.injEq] at h
      obtain ⟨rfl, rfl⟩ := h
      exact Or.inr (Or.inr (Or.inl ⟨hc, rfl, rfl, rfl, rfl, rfl, rfl⟩))
    · rw [if_neg hc] at h; simp at h
  · simp at h
  · unfold RWMutex.RLock at h
    by_cases hc : g.lock.writer = false
    · rw [if_pos hc] at h
      simp only [Option.some.injEq, Prod.mk.injEq] at h
      obtain ⟨rfl, rfl⟩ := h
      exact Or.inr (Or.inr (Or.inr (Or.inl ⟨hc, rfl, rfl, rfl, rfl, rfl, rfl⟩)))
    · rw [if_neg hc] at h; simp at h
  · simp only [Option.some.injEq, Prod.mk.injEq] at h
    obtain ⟨rfl, rfl⟩ := h
    exact Or.inr (Or.inl ⟨rfl, rfl, rfl⟩)
  · unfold RWMutex.RUnlock at h
    by_cases hc : 0 < g.lock.readers
    · rw [if_pos hc] at h
      simp only [Option.some.injEq, Prod.mk.injEq] at h
      obtain ⟨rfl, rfl⟩ := h
      exact Or.inr (Or.inr (Or.inr (Or.inr ⟨hc, rfl, rfl, rfl, rfl, rfl, rfl⟩)))
    · rw [if_neg hc] at h; simp at h
  · simp at h

theorem RegState.step_inv (s s2 : RegState) (i : Nat) (h : s.step i = some s2) :
    ∃ t t2, s.tasks[i]? = some t ∧ t.step s.g = some (s2.g, t2) ∧ s2.tasks = s.tasks.set i t2 := by
  unfold RegState.step at h
  cases ht : s.tasks[i]? with
  | none => simp [ht] at h
  | some t =>
    rw [ht] at h
    cases hs : t.step s.g with
    | none => simp [hs] at h
    | some r =>
      obtain ⟨g2, t2⟩ := r
      simp only [hs, Option.some.injEq] at h
      subst h
      exact ⟨t, t2, rfl, hs, rfl⟩

theorem RegInv_step (s s2 : RegState) (i : Nat) (hinv : RegInv s)
    (h : s.step i = some s2) : RegInv s2 := by
  obtain ⟨t, t2, ht, hs, htasks⟩ := RegState.step_inv s s2 i h
  have hw := countP_set_lookup Task.writing s.tasks i t t2 ht
  have hr := countP_set_lookup Task.reading s.tasks i t t2 ht
  obtain ⟨hi1, hi2, hi3, hi4⟩ := hinv
  unfold RegInv RegState.writersInside RegState.readersInside
  unfold RegState.writersInside at hi1 hi2 hi4
  unfold RegState.readersInside at hi3 hi4
  rw [htasks]
  generalize List.countP Task.writing (s.tasks.set i t2) = W2 at *
  generalize List.countP Task.reading (s.tasks.set i t2) = R2 at *
  generalize List.countP Task.writing s.tasks = W at *
  generalize List.countP Task.reading s.tasks = R at *
  rcases Task.step_effect s.g s2.g t t2 hs with
    ⟨a1, a2, a3, a4, b1, b2, b3, b4⟩ | ⟨a1, b1, b2⟩ | ⟨a1, a2, a3, b1, b2, b3, b4⟩ |
    ⟨a1, a2, a3, b1, b2, b3, b4⟩ | ⟨a1, a2, a3, b1, b2, b3, b4⟩
  · simp only [b1, b2, b3, b4, a1, a3, a4] at hw hr hi1 ⊢
    simp at hw hr hi1 ⊢
    omega
  · simp only [b1, b2, a1] at hw hr ⊢
    have hw2 : W2 = W := by omega
    have hr2 : R2 = R := by omega
    subst hw2; subst hr2
    exact ⟨hi1, hi2, hi3, hi4⟩
  · simp only [b1, b2, b3, b4, a1, a2, a3] at hw hr hi1 ⊢
    simp at hw hr hi1 ⊢
    omega
  · simp only [b1, b2, b3, b4, a1, a2, a3] at hw hr hi1 ⊢
    simp at hw hr hi1 ⊢
    omega
  · simp only [b1, b2, b3, b4, a2, a3] at hw hr ⊢
    simp at hw hr ⊢
    cases hb : s.g.lock.writer
    · simp [hb] at hi1 ⊢
      omega
    · simp [hb] at hi1 ⊢
      omega

theorem Reach.invariant {σ ι : Type} {step : σ → ι → Option σ} {s0 s : σ} (P : σ → Prop)
    (h0 : P s0) (hstep : ∀ a b i, P a → step a i = some b → P b)
    (h : Reach step s0 s) : P s := by
  induction h with
  | init => exact h0
  | next i _ hs ih => exact hstep _ _ i ih hs

theorem Reach.of_exec {σ ι : Type} {step : σ → ι → Option σ} (sched : List ι) (s0 a b : σ)
    (ha : Reach step s0 a) (h : exec step a sched = some b) : Reach step s0 b := by
  induction sched generalizing a with
  | nil =>
    simp only [exec, Option.some.injEq] at h
    exact h ▸ ha
  | cons i rest ih =>
    simp only [exec] at h
    cases hs : step a i with
    | none => simp [hs] at h
    | some c =>
      rw [hs] at h
      exact ih c (Reach.next i ha hs) h

theorem RegInv_reach (calls : List Call) (s : RegState)
    (h : Reach RegState.step (RegState.init calls) s) : RegInv s :=
  Reach.invariant RegInv (RegInv_init calls) RegInv_step h

theorem Task.step_data (g g2 : Globals) (t t2 : Task) (h : t.step g = some (g2, t2)) :
    t2.call = t.call ∧
    ((t.pc = Pc.start ∧ t2.pc = Pc.held ∧ g2.num2Name = g.num2Name ∧ t2.result = t.result) ∨
     (t.pc = Pc.held ∧ t2.pc = Pc.bodyDone ∧
        ((∃ num name, t.call = Call.set num name ∧ g2.num2Name = g.num2Name.set num name ∧
            t2.result = t.result) ∨
         (∃ num, t.call = Call.get num ∧ g2.num2Name = g.num2Name ∧
            t2.result = some (g.num2Name.index num)))) ∨
     (t.pc = Pc.bodyDone ∧ t2.pc = Pc.returned ∧ g2.num2Name = g.num2Name ∧
        t2.result = t.result)) := by
  obtain ⟨c, pc, res⟩ := t
  cases c <;> cases pc <;> simp only [Task.step] at h
  · cases hl : g.lock.Lock with
    | none => simp [hl] at h
    | some l =>
      simp only [hl, Option.some.injEq, Prod.mk.injEq] at h
      obtain ⟨rfl, rfl⟩ := h
      exact ⟨rfl, Or.inl ⟨rfl, rfl, rfl, rfl⟩⟩
  · simp only [Option.some.injEq, Prod.mk.injEq] at h
    obtain ⟨rfl, rfl⟩ := h
    exact ⟨rfl, Or.inr (Or.inl ⟨rfl, rfl, Or.inl ⟨_, _, rfl, rfl, rfl⟩⟩)⟩
  · cases hl : g.lock.Unlock with
    | none => simp [hl] at h
    | some l =>
      simp only [hl, Option.some.injEq, Prod.mk.injEq] at h
      obtain ⟨rfl, rfl⟩ := h
      exact ⟨rfl, Or.inr (Or.inr ⟨rfl, rfl, rfl, rfl⟩)⟩
  · simp at h
  · cases hl : g.lock.RLock with
    | none => simp [hl] at h
    | some l =>
      simp only [hl, Option.some.injEq, Prod.mk.injEq] at h
      obtain ⟨rfl, rfl⟩ := h
      exact ⟨rfl, Or.inl ⟨rfl, rfl, rfl, rfl⟩⟩
  · simp only [Option.some.injEq, Prod.mk.injEq] at h
    obtain ⟨rfl, rfl⟩ := h
    exact ⟨rfl, Or.inr (Or.inl ⟨rfl, rfl, Or.inr ⟨_, rfl, rfl, rfl⟩⟩)⟩
  · cases hl : g.lock.RUnlock with
    | none => simp [hl] at h
    | some l =>
      simp only [hl, Option.some.injEq, Prod.mk.injEq] at h
      obtain ⟨rfl, rfl⟩ := h
      exact ⟨rfl, Or.inr (Or.inr ⟨rfl, rfl, rfl, rfl⟩)⟩
  · simp at h

theorem sum_map_set_lookup {α : Type} (f : α → Nat) (l : List α) (i : Nat) (t t2 : α)
    (h : l[i]? = some t) :
    ((l.set i t2).map f).sum + f t = (l.map f).sum + f t2 := by
  induction l generalizing i with
  | nil => simp at h
  | cons x xs ih =>
    cases i with
    | zero =>
      simp only [List.getElem?_cons_zero, Option.some.injEq] at h
      subst h
      simp only [List.set_cons_zero, List.map_cons, List.sum_cons]
      omega
    | succ j =>
      simp only [List.getElem?_cons_succ] at h
      have := ih j h
      simp only [List.set_cons_succ, List.map_cons, List.sum_cons]
      omega

theorem RegState.step_remaining (s s2 : RegState) (i : Nat) (h : s.step i = some s2) :
    s2.remaining + 1 = s.remaining := by
  obtain ⟨t, t2, ht, hs, htasks⟩ := RegState.step_inv s s2 i h
  have hsum : ((s.tasks.set i t2).map (fun t => t.pc.remaining)).sum + t.pc.remaining
      = (s.tasks.map (fun t => t.pc.remaining)).sum + t2.pc.remaining :=
    sum_map_set_lookup (fun t => t.pc.remaining) s.tasks i t t2 ht
  unfold RegState.remaining
  rw [htasks]
  have r3 : Pc.start.remaining = 3 := rfl
  have r2 : Pc.held.remaining = 2 := rfl
  have r1 : Pc.bodyDone.remaining = 1 := rfl
  have r0 : Pc.returned.remaining = 0 := rfl
  obtain ⟨_, hd⟩ := Task.step_data s.g s2.g t t2 hs
  rcases hd with ⟨h1, h2, _⟩ | ⟨h1, h2, _⟩ | ⟨h1, h2, _⟩ <;>
    rw [h1, h2] at hsum <;> omega

theorem exists_index_of_countP_pos {α : Type} (p : α → Bool) (l : List α)
    (h : 0 < l.countP p) : ∃ (i : Nat) (t : α), l[i]? = some t ∧ p t = true := by
  obtain ⟨t, hm, hp⟩ := List.countP_pos_iff.1 h
  obtain ⟨i, hi⟩ := List.mem_iff_getElem?.1 hm
  exact ⟨i, t, hi, hp⟩

theorem countP_pos_of_lookup {α : Type} (p : α → Bool) (l : List α) (i : Nat) (t : α)
    (h : l[i]? = some t) (hp : p t = true) : 0 < l.countP p :=
  List.countP_pos_iff.2 ⟨t, List.mem_iff_getElem?.2 ⟨i, h⟩, hp⟩

theorem RegState.step_of (s : RegState) (i : Nat) (t t2 : Task) (g2 : Globals)
    (ht : s.tasks[i]? = some t) (hs : t.step s.g = some (g2, t2)) :
    s.step i = some ⟨g2, s.tasks.set i t2⟩ := by
  simp [RegState.step, ht, hs]

theorem Task.step_writing (g : Globals) (t : Task) (hw : t.writing = true)
    (hl : g.lock.writer = true) : ∃ r, t.step g = some r := by
  obtain ⟨c, pc, res⟩ := t
  cases c <;> cases pc <;> simp [Task.writing] at hw <;>
    simp [Task.step, RWMutex.Unlock, hl]

theorem Task.step_reading (g : Globals) (t : Task) (hr : t.reading = true)
    (hl : 0 < g.lock.readers) : ∃ r, t.step g = some r := by
  obtain ⟨c, pc, res⟩ := t
  cases c <;> cases pc <;> simp [Task.reading] at hr <;>
    simp [Task.step, RWMutex.RUnlock, hl]

theorem Task.step_start (g : Globals) (t : Task) (hpc : t.pc = Pc.start)
    (hw : g.lock.writer = false) (hr : g.lock.readers = 0) : ∃ r, t.step g = some r := by
  obtain ⟨c, pc, res⟩ := t
  simp only at hpc
  subst hpc
  cases c <;> simp [Task.step, RWMutex.Lock, RWMutex.RLock, hw, hr]

theorem RegState.inside_enabled (s : RegState) (hinv : RegInv s) (i : Nat) (t : Task)
    (ht : s.tasks[i]? = some t) (hin : t.writing = true ∨ t.reading = true) :
    ∃ s2, s.step i = some s2 := by
  obtain ⟨hi1, hi2, hi3, hi4⟩ := hinv
  rcases hin with hw | hr
  · have hpos : 0 < s.writersInside := countP_pos_of_lookup Task.writing s.tasks i t ht hw
    have hl : s.g.lock.writer = true := hi1.2 (by omega)
    obtain ⟨⟨g2, t2⟩, hs⟩ := Task.step_writing s.g t hw hl
    exact ⟨_, RegState.step_of s i t t2 g2 ht hs⟩
  · have hpos : 0 < s.readersInside := countP_pos_of_lookup Task.reading s.tasks i t ht hr
    obtain ⟨⟨g2, t2⟩, hs⟩ := Task.step_reading s.g t hr (by omega)
    exact ⟨_, RegState.step_of s i t t2 g2 ht hs⟩

theorem Task.not_inside (t : Task) (hw : t.writing = false) (hr : t.reading = false) :
    t.pc = Pc.start ∨ t.pc = Pc.returned := by
  obtain ⟨c, pc, res⟩ := t
  cases c <;> cases pc <;> simp [Task.writing, Task.reading] at hw hr ⊢

theorem RegState.enabled (s : RegState) (hinv : RegInv s) (hn : s.allReturned = false) :
    ∃ i s2, s.step i = some s2 := by
  by_cases hW : 0 < s.writersInside
  · obtain ⟨i, t, ht, hp⟩ := exists_index_of_countP_pos Task.writing s.tasks hW
    exact ⟨i, RegState.inside_enabled s hinv i t ht (Or.inl hp)⟩
  · by_cases hR : 0 < s.readersInside
    · obtain ⟨i, t, ht, hp⟩ := exists_index_of_countP_pos Task.reading s.tasks hR
      exact ⟨i, RegState.inside_enabled s hinv i t ht (Or.inr hp)⟩
    · obtain ⟨hi1, hi2, hi3, hi4⟩ := hinv
      have hw0 : s.writersInside = 0 := by omega
      have hr0 : s.readersInside = 0 := by omega
      have hlw : s.g.lock.writer = false := by
        cases hb : s.g.lock.writer with
        | false => rfl
        | true => have := hi1.1 hb; omega
      have hlr : s.g.lock.readers = 0 := by omega
      unfold RegState.allReturned at hn
      rw [List.all_eq_false] at hn
      obtain ⟨t, hm, hp⟩ := hn
      obtain ⟨i, ht⟩ := List.mem_iff_getElem?.1 hm
      have hwt : t.writing = false := by
        cases hb : t.writing with
        | false => rfl
        | true =>
          have := countP_pos_of_lookup Task.writing s.tasks i t ht hb
          unfold RegState.writersInside at hw0; omega
      have hrt : t.reading = false := by
        cases hb : t.reading with
        | false => rfl
        | true =>
          have := countP_pos_of_lookup Task.reading s.tasks i t ht hb
          unfold RegState.readersInside at hr0; omega
      rcases Task.not_inside t hwt hrt with hst | hret
      · obtain ⟨⟨g2, t2⟩, hs⟩ := Task.step_start s.g t hst hlw hlr
        exact ⟨i, _, RegState.step_of s i t t2 g2 ht hs⟩
      · simp [hret] at hp

theorem RegState.released (s : RegState) (hinv : RegInv s) (hall : s.allReturned = true) :
    s.g.lock = RWMutex.new := by
  obtain ⟨hi1, hi2, hi3, hi4⟩ := hinv
  unfold RegState.allReturned at hall
  rw [List.all_eq_true] at hall
  have hw0 : s.writersInside = 0 := by
    unfold RegState.writersInside
    rw [List.countP_eq_zero]
    intro t hm
    have := hall t hm
    obtain ⟨c, pc, res⟩ := t
    simp only [beq_iff_eq] at this
    subst this
    cases c <;> simp [Task.writing]
  have hr0 : s.readersInside = 0 := by
    unfold RegState.readersInside
    rw [List.countP_eq_zero]
    intro t hm
    have := hall t hm
    obtain ⟨c, pc, res⟩ := t
    simp only [beq_iff_eq] at this
    subst this
    cases c <;> simp [Task.reading]
  have hlw : s.g.lock.writer = false := by
    cases hb : s.g.lock.writer with
    | false => rfl
    | true => have := hi1.1 hb; omega
  have hlr : s.g.lock.readers = 0 := by omega
  cases hl : s.g.lock with
  | mk w r =>
    rw [hl] at hlw hlr
    simp only at hlw hlr
    subst hlw; subst hlr
    rfl

theorem MainInv_init : MainInv (RegState.init mainCalls) := by
  refine ⟨Task.spawn (Call.set 1 "Liu Bei"), Task.spawn (Call.get 1), rfl, rfl, rfl,
    Or.inl rfl, ?_, Or.inl rfl, ?_⟩
  · intro h
    rcases h with h | h <;> simp [Task.spawn] at h
  · intro h
    rcases h with h | h <;> simp [Task.spawn] at h

theorem MainInv_step (s s2 : RegState) (i : Nat) (hinv : MainInv s)
    (h : s.step i = some s2) : MainInv s2 := by
  obtain ⟨tw, tr, htasks, hcw, hcr, hmap, hwdone, hres, hrdone⟩ := hinv
  obtain ⟨t, t2, ht, hs, hset⟩ := RegState.step_inv s s2 i h
  obtain ⟨hcall, hd⟩ := Task.step_data s.g s2.g t t2 hs
  rw [htasks] at ht hset
  match i with
  | 0 =>
    simp only [List.getElem?_cons_zero, Option.some.injEq] at ht
    subst ht
    simp only [List.set_cons_zero] at hset
    rcases hd with ⟨h1, h2, h3, h4⟩ | ⟨h1, h2, h3⟩ | ⟨h1, h2, h3, h4⟩
    · refine ⟨t2, tr, hset, hcall.trans hcw, hcr, by rw [h3]; exact hmap, ?_, hres, hrdone⟩
      intro hp
      rcases hp with hp | hp <;> rw [h2] at hp <;> cases hp
    · rcases h3 with ⟨num, name, e1, e2, e3⟩ | ⟨num, e1, _⟩
      · rw [hcw] at e1
        simp only [Call.set.injEq] at e1
        obtain ⟨rfl, rfl⟩ := e1
        have hidx : s2.g.num2Name.index 1 = "Liu Bei" := by
          rw [e2]; simp [GoMap.index, GoMap.set]
        exact ⟨t2, tr, hset, hcall.trans hcw, hcr, Or.inr hidx, fun _ => hidx, hres, hrdone⟩
      · rw [hcw] at e1; cases e1
    · have hidx : s2.g.num2Name.index 1 = "Liu Bei" := by
        rw [h3]; exact hwdone (Or.inl h1)
      exact ⟨t2, tr, hset, hcall.trans hcw, hcr, Or.inr hidx, fun _ => hidx, hres, hrdone⟩
  | 1 =>
    simp only [List.getElem?_cons_succ, List.getElem?_cons_zero, Option.some.injEq] at ht
    subst ht
    simp only [List.set_cons_succ, List.set_cons_zero] at hset
    rcases hd with ⟨h1, h2, h3, h4⟩ | ⟨h1, h2, h3⟩ | ⟨h1, h2, h3, h4⟩
    · refine ⟨tw, t2, hset, hcw, hcall.trans hcr, by rw [h3]; exact hmap,
        by rw [h3]; exact hwdone, by rw [h4]; exact hres, ?_⟩
      intro hp
      rcases hp with hp | hp <;> rw [h2] at hp <;> cases hp
    · rcases h3 with ⟨num, name, e1, _, _⟩ | ⟨num, e1, e2, e3⟩
      · rw [hcr] at e1; cases e1
      · rw [hcr] at e1
        simp only [Call.get.injEq] at e1
        subst e1
        refine ⟨tw, t2, hset, hcw, hcall.trans hcr, by rw [e2]; exact hmap,
          by rw [e2]; exact hwdone, ?_, ?_⟩
        · rw [e3]
          rcases hmap with hm | hm
          · exact Or.inr (Or.inl (by rw [hm]))
          · exact Or.inr (Or.inr (by rw [hm]))
        · intro _
          rw [e3]
          simp
    · refine ⟨tw, t2, hset, hcw, hcall.trans hcr, by rw [h3]; exact hmap,
        by rw [h3]; exact hwdone, by rw [h4]; exact hres, ?_⟩
      intro _
      rw [h4]
      exact hrdone (Or.inl h1)
  | n + 2 =>
    simp at ht

theorem MainInv_reach (s : RegState)
    (h : Reach RegState.step (RegState.init mainCalls) s) : MainInv s :=
  Reach.invariant MainInv MainInv_init MainInv_step h

theorem MainInv_final (s : RegState) (hinv : MainInv s) (hall : s.allReturned = true) :
    s.g.num2Name.index 1 = "Liu Bei" ∧
    ∃ tw tr, s.tasks = [tw, tr] ∧ (tr.result = some "" ∨ tr.result = some "Liu Bei") := by
  obtain ⟨tw, tr, htasks, hcw, hcr, hmap, hwdone, hres, hrdone⟩ := hinv
  unfold RegState.allReturned at hall
  rw [htasks] at hall
  simp only [List.all_cons, List.all_nil, Bool.and_true, Bool.and_eq_true, beq_iff_eq] at hall
  refine ⟨hwdone (Or.inr hall.1), tw, tr, htasks, ?_⟩
  have := hrdone (Or.inr hall.2)
  rcases hres with h | h | h
  · exact absurd h this
  · exact Or.inl h
  · exact Or.inr h

theorem lookup_append_cons {α : Type} (pre : List α) (t : α) (post : List α) :
    (pre ++ t :: post)[pre.length]? = some t := by
  induction pre with
  | nil => simp
  | cons x xs ih => simpa using ih

theorem set_append_cons {α : Type} (pre : List α) (t t2 : α) (post : List α) :
    (pre ++ t :: post).set pre.length t2 = pre ++ t2 :: post := by
  induction pre with
  | nil => rfl
  | cons x xs ih => simp [ih]

theorem readers_enter (k : Int) (mp : GoMap) (s0 : RegState) (m : Nat) (pre : List Task)
    (h : Reach RegState.step s0
      ⟨⟨mp, ⟨false, pre.length⟩⟩, pre ++ List.replicate m (Task.spawn (Call.get k))⟩) :
    Reach RegState.step s0
      ⟨⟨mp, ⟨false, pre.length + m⟩⟩, pre ++ List.replicate m ⟨Call.get k, Pc.held, none⟩⟩ := by
  induction m generalizing pre with
  | zero => simpa using h
  | succ j ih =>
    have hstep : RegState.step
        ⟨⟨mp, ⟨false, pre.length⟩⟩, pre ++ List.replicate (j + 1) (Task.spawn (Call.get k))⟩
        pre.length
        = some ⟨⟨mp, ⟨false, pre.length + 1⟩⟩,
            (pre ++ [⟨Call.get k, Pc.held, none⟩]) ++
              List.replicate j (Task.spawn (Call.get k))⟩ := by
      have h1 := RegState.step_of
        ⟨⟨mp, ⟨false, pre.length⟩⟩, pre ++ List.replicate (j + 1) (Task.spawn (Call.get k))⟩
        pre.length (Task.spawn (Call.get k)) ⟨Call.get k, Pc.held, none⟩
        ⟨mp, ⟨false, pre.length + 1⟩⟩
        (by rw [List.replicate_succ]; exact lookup_append_cons pre _ _)
        (by simp [Task.step, Task.spawn, RWMutex.RLock])
      rw [h1, List.replicate_succ, set_append_cons]
      simp
    have h2 := ih (pre ++ [⟨Call.get k, Pc.held, none⟩])
      (by simpa using Reach.next pre.length h hstep)
    have e : (pre ++ [(⟨Call.get k, Pc.held, none⟩ : Task)]).length + j = pre.length + (j + 1) := by
      simp; omega
    rw [e] at h2
    simpa [List.replicate_succ] using h2

theorem readers_together (n : Nat) (k : Int) :
    ∃ s, Reach RegState.step (RegState.init (List.replicate n (Call.get k))) s ∧
      s.readersInside = n ∧ s.writersInside = 0 := by
  refine ⟨⟨⟨GoMap.make, ⟨false, 0 + n⟩⟩, [] ++ List.replicate n ⟨Call.get k, Pc.held, none⟩⟩,
    ?_, ?_, ?_⟩
  · have h0 : Reach RegState.step (RegState.init (List.replicate n (Call.get k)))
        ⟨⟨GoMap.make, ⟨false, ([] : List Task).length⟩⟩,
          [] ++ List.replicate n (Task.spawn (Call.get k))⟩ := by
      have : RegState.init (List.replicate n (Call.get k))
          = ⟨⟨GoMap.make, ⟨false, ([] : List Task).length⟩⟩,
              [] ++ List.replicate n (Task.spawn (Call.get k))⟩ := by
        simp [RegState.init, Globals.init, RWMutex.new]
      rw [this]
      exact Reach.init
    exact readers_enter k GoMap.make _ n [] h0
  · have : ∀ m : Nat, List.countP Task.reading
        (List.replicate m (⟨Call.get k, Pc.held, none⟩ : Task)) = m := by
      intro m
      induction m with
      | zero => rfl
      | succ j ih => simp [List.replicate_succ, List.countP_cons, Task.reading, ih]
    simpa [RegState.readersInside] using this n
  · simp [RegState.writersInside, Task.writing, List.countP_eq_zero]

/-- C9: in every state reachable with any set of concurrent `SetName`/`GetName`
calls, at most one goroutine is inside `SetName` and then none is inside `GetName`;
the lock records exactly the goroutines inside; a goroutine inside can always take
its next action, so every acquired lock is released; some goroutine can act until
all have returned, each action uses up one of the finitely many remaining ones,
and then the lock is free. Any number of `GetName` calls can be inside together.
In `main`, once both goroutines have returned, the map holds `"Liu Bei"` under
key 1 and the string read is `""` or `"Liu Bei"`; both outcomes occur. -/
theorem C9_reader_writer_exclusion :
    (∀ (calls : List Call) (s : RegState), Reach RegState.step (RegState.init calls) s →
      s.writersInside ≤ 1 ∧ (s.writersInside = 1 → s.readersInside = 0) ∧
      (s.g.lock.writer = true ↔ s.writersInside = 1) ∧
      s.g.lock.readers = s.readersInside ∧
      (∀ (i : Nat) (t : Task), s.tasks[i]? = some t →
        (t.writing = true ∨ t.reading = true) → ∃ s2, s.step i = some s2) ∧
      (s.allReturned = false → ∃ i s2, s.step i = some s2) ∧
      (∀ i s2, s.step i = some s2 → s2.remaining + 1 = s.remaining) ∧
      (s.allReturned = true → s.g.lock = RWMutex.new)) ∧
    (∀ (n : Nat) (k : Int), ∃ s,
      Reach RegState.step (RegState.init (List.replicate n (Call.get k))) s ∧
      s.readersInside = n) ∧
    (∀ s : RegState, Reach RegState.step (RegState.init mainCalls) s →
      s.allReturned = true →
      s.g.num2Name.index 1 = "Liu Bei" ∧
      ∃ tw tr, s.tasks = [tw, tr] ∧ (tr.result = some "" ∨ tr.result = some "Liu Bei")) ∧
    (exec RegState.step (RegState.init mainCalls) [1, 1, 1, 0, 0, 0]).map RegState.observe
      = some ([none, some ""], "Liu Bei", true) ∧
    (exec RegState.step (RegState.init mainCalls) [0, 0, 0, 1, 1, 1]).map RegState.observe
      = some ([none, some "Liu Bei"], "Liu Bei", true) := by
  refine ⟨?_, ?_, ?_, ?_, ?_⟩
  · intro calls s hr
    have hinv := RegInv_reach calls s hr
    exact ⟨hinv.2.1, hinv.2.2.2, hinv.1, hinv.2.2.1,
      fun i t ht hin => RegState.inside_enabled s hinv i t ht hin,
      RegState.enabled s hinv,
      fun i s2 h => RegState.step_remaining s s2 i h,
      RegState.released s hinv⟩
  · intro n k
    obtain ⟨s, h1, h2, _⟩ := readers_together n k
    exact ⟨s, h1, h2⟩
  · intro s hr hall
    exact MainInv_final s (MainInv_reach s hr) hall
  · decide
  · decide

theorem C9_reader_writer_exclusion_witness :
    Reach RegState.step (RegState.init mainCalls) (RegState.init mainCalls) ∧
    (RegState.init mainCalls).writersInside ≤ 1 ∧
    (RegState.init mainCalls).allReturned = false ∧
    ∃ i s2, (RegState.init mainCalls).step i = some s2 :=
  ⟨Reach.init,
    (C9_reader_writer_exclusion.1 mainCalls (RegState.init mainCalls) Reach.init).1,
    by decide,
    (C9_reader_writer_exclusion.1 mainCalls (RegState.init mainCalls)
      Reach.init).2.2.2.2.2.1 (by decide)⟩

theorem lastSet_none (k : Int) (calls : List (Int × String))
    (hk : ∀ c ∈ calls, c.1 ≠ k) : lastSet k calls = none := by
  induction calls with
  | nil => rfl
  | cons c rest ih =>
    obtain ⟨num, name⟩ := c
    have h1 : num ≠ k := hk (num, name) (List.mem_cons_self _ _)
    have h2 := ih (fun c hc => hk c (List.mem_cons_of_mem _ hc))
    simp [lastSet, h2, h1]

/-- C2: `SetName` and `GetName` complete from every map contents and for every
key; `GetName` leaves the variables as they were, so calling it again returns
the same string; and for a key on which `SetName` was never called since the
program started, `GetName` returns the empty string. -/
theorem C2_total_and_read_only (m : GoMap) (k : Int) (calls : List (Int × String))
    (hk : ∀ c ∈ calls, c.1 ≠ k) :
    (∀ (num : Int) (name : String), ∃ g, SetName (Globals.idle m) num name = some g) ∧
    (∃ r g, GetName (Globals.idle m) k = some (r, g) ∧ g = Globals.idle m ∧
      GetName g k = some (r, g)) ∧
    (∃ g g2, SetNames Globals.init calls = some g ∧ GetName g k = some ("", g2)) := by
  refine ⟨fun num name => ⟨_, SetName_idle m num name⟩,
    ⟨_, _, GetName_idle m k, rfl, GetName_idle m k⟩, ?_⟩
  refine ⟨Globals.idle (GoMap.make.setAll calls), Globals.idle (GoMap.make.setAll calls),
    SetNames_idle calls GoMap.make, ?_⟩
  rw [GetName_idle, setAll_index, lastSet_none k calls hk]
  rfl

theorem C2_total_and_read_only_witness :
    (∀ c ∈ [((1 : Int), "Liu Bei"), (2, "Guan Yu")], c.1 ≠ 3) ∧
    (∃ g g2, SetNames Globals.init [(1, "Liu Bei"), (2, "Guan Yu")] = some g ∧
      GetName g 3 = some ("", g2)) :=
  ⟨by decide,
    (C2_total_and_read_only GoMap.make 3 [(1, "Liu Bei"), (2, "Guan Yu")] (by decide)).2.2⟩

/-! ### The spawning loop -/

theorem lookup_set {α : Type} (l : List α) (i j : Nat) (t t2 : α) (h : l[i]? = some t) :
    (l.set i t2)[j]? = if j = i then some t2 else l[j]? := by
  induction l generalizing i j with
  | nil => simp at h
  | cons x xs ih =>
    cases i with
    | zero =>
      cases j with
      | zero => simp
      | succ j2 => simp
    | succ i2 =>
      simp only [List.getElem?_cons_succ] at h
      cases j with
      | zero => simp
      | succ j2 =>
        simp only [List.set_cons_succ, List.getElem?_cons_succ, ih i2 j2 h]
        simp

theorem lookup_append_single {α : Type} (l : List α) (a : α) (j : Nat) :
    (l ++ [a])[j]? = if j = l.length then some a else l[j]? := by
  induction l generalizing j with
  | nil =>
    cases j with
    | zero => simp
    | succ j2 => simp
  | cons x xs ih =>
    cases j with
    | zero => simp
    | succ j2 =>
      simp only [List.cons_append, List.getElem?_cons_succ, ih j2, List.length_cons]
      simp

theorem LoopState.step_cases (s s2 : LoopState) (tid : Option Nat)
    (h : s.step tid = some s2) :
    s.panicked = false ∧ s.pc ≠ MainPc.returned ∧
    ((tid = none ∧ s.mainStep = some s2) ∨ (∃ k, tid = some k ∧ s.workerStep k = some s2)) := by
  unfold LoopState.step at h
  by_cases hg : s.panicked = true ∨ s.pc = MainPc.returned
  · rw [if_pos hg] at h; cases h
  · rw [if_neg hg] at h
    have hp : s.panicked = false := by
      cases hb : s.panicked with
      | false => rfl
      | true => exact absurd (Or.inl hb) hg
    refine ⟨hp, fun e => hg (Or.inr e), ?_⟩
    cases tid with
    | none => exact Or.inl ⟨rfl, h⟩
    | some k => exact Or.inr ⟨k, rfl, h⟩

theorem LoopState.workerStep_cases (s s2 : LoopState) (k : Nat)
    (h : s.workerStep k = some s2) :
    ∃ w, s.workers[k]? = some w ∧
      ((w.pc = WorkerPc.print ∧
          s2 = ⟨s.n, s.i, s.pc, s.wg, s.workers.set k ⟨w.j, WorkerPc.signal⟩, s.out ++ [w.j],
            s.panicked⟩) ∨
       (w.pc = WorkerPc.signal ∧ wgAdd s.wg (-1) < 0 ∧
          s2 = ⟨s.n, s.i, s.pc, wgAdd s.wg (-1), s.workers, s.out, true⟩) ∨
       (w.pc = WorkerPc.signal ∧ ¬ wgAdd s.wg (-1) < 0 ∧
          s2 = ⟨s.n, s.i, s.pc, wgAdd s.wg (-1), s.workers.set k ⟨w.j, WorkerPc.finished⟩,
            s.out, s.panicked⟩)) := by
  unfold LoopState.workerStep at h
  cases hw : s.workers[k]? with
  | none => rw [hw] at h; cases h
  | some w =>
    rw [hw] at h
    refine ⟨w, rfl, ?_⟩
    cases hpc : w.pc with
    | print =>
      simp only [hpc, Option.some.injEq] at h
      exact Or.inl ⟨rfl, h.symm⟩
    | signal =>
      simp only [hpc] at h
      by_cases hneg : wgAdd s.wg (-1) < 0
      · rw [if_pos hneg] at h
        simp only [Option.some.injEq] at h
        exact Or.inr (Or.inl ⟨rfl, hneg, h.symm⟩)
      · rw [if_neg hneg] at h
        simp only [Option.some.injEq] at h
        exact Or.inr (Or.inr ⟨rfl, hneg, h.symm⟩)
    | finished =>
      simp only [hpc] at h
      cases h

theorem wrapInt32_eq (x : Int) (h1 : -2147483648 ≤ x) (h2 : x < 2147483648) :
    wrapInt32 x = x := by
  unfold wrapInt32
  omega

theorem LoopInv_init (n : Nat) (hb : n < 2147483648) : LoopInv n (LoopState.init n) := by
  refine ⟨hb, rfl, rfl, Nat.zero_le _, rfl, fun _ => ⟨rfl, rfl⟩, fun h => absurd rfl h, ?_, ?_, ?_, ?_⟩
  · intro h
    rcases h with h | h <;> cases h
  · intro h
    cases h
  · intro k w h
    simp [LoopState.init] at h
  · intro x
    simp [LoopState.init]

theorem LoopInv_step (n : Nat) (s s2 : LoopState) (tid : Option Nat) (hinv : LoopInv n s)
    (h : s.step tid = some s2) : LoopInv n s2 := by
  obtain ⟨hb, hn, hp, hile, hlen, hadd, hwg, hfin, hret, hidx, hcnt⟩ := hinv
  obtain ⟨_, hnr, hc⟩ := LoopState.step_cases s s2 tid h
  rcases hc with ⟨_, hm⟩ | ⟨k, _, hw⟩
  · unfold LoopState.mainStep at hm
    cases hpc : s.pc with
    | add =>
      rw [hpc] at hm
      obtain ⟨hi0, hwg0⟩ := hadd hpc
      have hv : wgAdd s.wg s.n = (n : Int) := by
        unfold wgAdd
        rw [hwg0, hn, wrapInt32_eq] <;> omega
      have hnn : ¬ wgAdd s.wg s.n < 0 := by rw [hv]; omega
      simp only [if_neg hnn, Option.some.injEq] at hm
      subst hm
      have hnil : s.workers = [] := List.length_eq_zero.1 (by rw [hlen, hi0])
      refine ⟨hb, hn, hp, Nat.zero_le _, by simp [hnil], ?_, ?_, ?_, ?_, hidx, hcnt⟩
      · intro e; cases e
      · intro _
        simp only [LoopState.doneCount, hnil, List.countP_nil]
        rw [hv]
        simp
      · intro e
        rcases e with e | e <;> cases e
      · intro e; cases e
    | loop =>
      rw [hpc] at hm
      by_cases hlt : s.i < s.n
      · simp only [if_pos hlt, Option.some.injEq] at hm
        subst hm
        have hdc : List.countP (fun w => w.pc == WorkerPc.finished)
            (s.workers ++ [⟨s.i, WorkerPc.print⟩])
            = List.countP (fun w => w.pc == WorkerPc.finished) s.workers := by
          simp [List.countP_append, List.countP_cons]
        refine ⟨hb, hn, hp, by simp only; omega, by simp [hlen], ?_, ?_, ?_, ?_, ?_, ?_⟩
        · intro e; cases e
        · intro _
          simp only [LoopState.doneCount, hdc]
          have := hwg (by rw [hpc]; intro e; cases e)
          simpa [LoopState.doneCount] using this
        · intro e
          rcases e with e | e <;> cases e
        · intro e; cases e
        · intro j w hjw
          simp only [lookup_append_single] at hjw
          by_cases hj : j = s.workers.length
          · rw [if_pos hj] at hjw
            simp only [Option.some.injEq] at hjw
            subst hjw
            simp only
            omega
          · rw [if_neg hj] at hjw
            exact hidx j w hjw
        · intro x
          simp only [lookup_append_single]
          by_cases hx : x = s.workers.length
          · rw [if_pos hx]
            have h1 := hcnt x
            have h2 : s.workers[x]? = none := by
              rw [hx]; simp
            rw [h2] at h1
            simpa using h1
          · rw [if_neg hx]
            exact hcnt x
      · simp only [if_neg hlt, Option.some.injEq] at hm
        subst hm
        refine ⟨hb, hn, hp, hile, hlen, ?_, ?_, ?_, ?_, hidx, hcnt⟩
        · intro e; cases e
        · intro _
          exact hwg (by rw [hpc]; intro e; cases e)
        · intro _
          simp only
          omega
        · intro e; cases e
    | wait =>
      rw [hpc] at hm
      by_cases hz : s.wg = 0
      · simp only [if_pos hz, Option.some.injEq] at hm
        subst hm
        have hw1 := hwg (by rw [hpc]; intro e; cases e)
        refine ⟨hb, hn, hp, hile, hlen, ?_, ?_, ?_, ?_, hidx, hcnt⟩
        · intro e; cases e
        · intro _; exact hw1
        · intro _; exact hfin (Or.inl hpc)
        · intro _
          have : ((s.doneCount : Nat) : Int) = (n : Int) := by omega
          exact_mod_cast this
      · simp only [if_neg hz] at hm
        cases hm
    | returned => exact absurd hpc hnr
  · obtain ⟨w, hkw, hcase⟩ := LoopState.workerStep_cases s s2 k hw
    have hjk : w.j = k := hidx k w hkw
    have hklt : k < s.workers.length := by
      obtain ⟨hi, _⟩ := List.getElem?_eq_some.1 hkw
      exact hi
    have hnadd : s.pc ≠ MainPc.add := by
      intro e
      have := (hadd e).1
      omega
    have hwg1 := hwg hnadd
    have hdone : w.pc = WorkerPc.signal → wgAdd s.wg (-1) = s.wg - 1 ∧ 0 ≤ s.wg - 1 := by
      intro hpc
      have hdc := countP_set_lookup (fun w => w.pc == WorkerPc.finished) s.workers k w
        ⟨w.j, WorkerPc.finished⟩ hkw
      simp [hpc] at hdc
      have hle : List.countP (fun w => w.pc == WorkerPc.finished)
          (s.workers.set k ⟨w.j, WorkerPc.finished⟩) ≤ s.workers.length := by
        have := List.countP_le_length (fun w => w.pc == WorkerPc.finished)
          (l := s.workers.set k ⟨w.j, WorkerPc.finished⟩)
        simpa using this
      simp only [LoopState.doneCount] at hwg1
      have h0 : 0 ≤ s.wg - 1 := by omega
      refine ⟨?_, h0⟩
      unfold wgAdd
      rw [wrapInt32_eq] <;> omega
    rcases hcase with ⟨hpc, rfl⟩ | ⟨hpc, hneg, rfl⟩ | ⟨hpc, hneg, rfl⟩
    · have hdc := countP_set_lookup (fun w => w.pc == WorkerPc.finished) s.workers k w
        ⟨w.j, WorkerPc.signal⟩ hkw
      simp [hpc] at hdc
      refine ⟨hb, hn, hp, hile, by simp [hlen], hadd, ?_, hfin, ?_, ?_, ?_⟩
      · intro hne
        simp only [LoopState.doneCount, hdc]
        exact hwg hne
      · intro e
        exact absurd e hnr
      · intro j w2 hjw
        simp only [lookup_set s.workers k j w _ hkw] at hjw
        by_cases hj : j = k
        · rw [if_pos hj] at hjw
          simp only [Option.some.injEq] at hjw
          subst hjw
          simp only
          omega
        · rw [if_neg hj] at hjw
          exact hidx j w2 hjw
      · intro x
        simp only [lookup_set s.workers k x w _ hkw, List.count_append]
        have h1 := hcnt x
        by_cases hx : x = k
        · rw [if_pos hx]
          subst hx
          rw [hkw] at h1
          simp [hpc] at h1
          simp [h1, hjk]
        · rw [if_neg hx]
          have hne : ¬ w.j = x := by omega
          rw [h1]
          simp [List.count_cons, hne]
    · have hdc := countP_set_lookup (fun w => w.pc == WorkerPc.finished) s.workers k w
        ⟨w.j, WorkerPc.finished⟩ hkw
      simp [hpc] at hdc
      have hle : List.countP (fun w => w.pc == WorkerPc.finished)
          (s.workers.set k ⟨w.j, WorkerPc.finished⟩) ≤ s.workers.length := by
        have := List.countP_le_length (fun w => w.pc == WorkerPc.finished)
          (l := s.workers.set k ⟨w.j, WorkerPc.finished⟩)
        simpa using this
      exfalso
      obtain ⟨hv, h0⟩ := hdone hpc
      rw [hv] at hneg
      omega
    · have hdc := countP_set_lookup (fun w => w.pc == WorkerPc.finished) s.workers k w
        ⟨w.j, WorkerPc.finished⟩ hkw
      simp [hpc] at hdc
      refine ⟨hb, hn, hp, hile, by simp [hlen], ?_, ?_, hfin, ?_, ?_, ?_⟩
      · intro e
        exact absurd e hnadd
      · intro _
        simp only [LoopState.doneCount, hdc]
        simp only [LoopState.doneCount] at hwg1
        rw [(hdone hpc).1]
        push_cast
        omega
      · intro e
        exact absurd e hnr
      · intro j w2 hjw
        simp only [lookup_set s.workers k j w _ hkw] at hjw
        by_cases hj : j = k
        · rw [if_pos hj] at hjw
          simp only [Option.some.injEq] at hjw
          subst hjw
          simp only
          omega
        · rw [if_neg hj] at hjw
          exact hidx j w2 hjw
      · intro x
        simp only [lookup_set s.workers k x w _ hkw]
        have h1 := hcnt x
        by_cases hx : x = k
        · rw [if_pos hx]
          subst hx
          rw [hkw] at h1
          simp [hpc] at h1
          simp [h1]
        · rw [if_neg hx]
          exact h1

theorem count_range (n x : Nat) : (List.range n).count x = if x < n then 1 else 0 := by
  by_cases hx : x < n
  · rw [if_pos hx]
    exact List.count_eq_one_of_mem (List.nodup_range n) (List.mem_range.2 hx)
  · rw [if_neg hx]
    exact List.count_eq_zero.2 (fun hm => hx (List.mem_range.1 hm))

theorem LoopInv_reach (n : Nat) (hb : n < 2147483648) (s : LoopState)
    (h : Reach LoopState.step (LoopState.init n) s) : LoopInv n s :=
  Reach.invariant (LoopInv n) (LoopInv_init n hb) (LoopInv_step n) h

theorem LoopInv_doneCount_le (n : Nat) (s : LoopState) (hinv : LoopInv n s) :
    s.doneCount ≤ s.i ∧ s.i ≤ n := by
  obtain ⟨hb, hn, hp, hile, hlen, _⟩ := hinv
  have := List.countP_le_length (fun w => w.pc == WorkerPc.finished) (l := s.workers)
  refine ⟨?_, hile⟩
  unfold LoopState.doneCount
  omega

theorem LoopInv_out (n : Nat) (s : LoopState) (hinv : LoopInv n s) :
    (∀ x, s.out.count x ≤ 1) ∧ (∀ x ∈ s.out, x < n) := by
  obtain ⟨hb, hn, hp, hile, hlen, hadd, hwg, hfin, hret, hidx, hcnt⟩ := hinv
  constructor
  · intro x
    rw [hcnt x]
    cases s.workers[x]? with
    | none => simp
    | some w => by_cases hw : w.pc = WorkerPc.print <;> simp [hw]
  · intro x hx
    have hpos : 0 < s.out.count x := List.count_pos_iff.2 hx
    rw [hcnt x] at hpos
    cases hw : s.workers[x]? with
    | none => rw [hw] at hpos; simp at hpos
    | some w =>
      obtain ⟨hi, _⟩ := List.getElem?_eq_some.1 hw
      omega

theorem LoopInv_all_done (n : Nat) (s : LoopState) (hinv : LoopInv n s)
    (hdone : s.doneCount = n) : s.out.Perm (List.range n) := by
  have hle := LoopInv_doneCount_le n s hinv
  obtain ⟨hb, hn, hp, hile, hlen, hadd, hwg, hfin, hret, hidx, hcnt⟩ := hinv
  have hin : s.i = n := by omega
  have hall : ∀ w ∈ s.workers, (w.pc == WorkerPc.finished) = true := by
    apply List.countP_eq_length.1
    unfold LoopState.doneCount at hdone
    omega
  rw [List.perm_iff_count]
  intro x
  rw [hcnt x, count_range]
  by_cases hx : x < n
  · rw [if_pos hx]
    have hxl : x < s.workers.length := by omega
    have hw : s.workers[x]? = some (s.workers[x]) := List.getElem?_eq_getElem hxl
    rw [hw]
    have := hall _ (List.getElem_mem hxl)
    simp only [beq_iff_eq] at this
    simp [this]
  · rw [if_neg hx]
    have hw : s.workers[x]? = none := List.getElem?_eq_none (by omega)
    rw [hw]

theorem LoopState.loop_step_remaining (n : Nat) (s s2 : LoopState) (tid : Option Nat)
    (hinv : LoopInv n s) (h : s.step tid = some s2) : s2.remaining + 1 = s.remaining := by
  have hinv2 := LoopInv_step n s s2 tid hinv h
  obtain ⟨_, hnr, hc⟩ := LoopState.step_cases s s2 tid h
  rcases hc with ⟨_, hm⟩ | ⟨k, _, hw⟩
  · unfold LoopState.mainStep at hm
    cases hpc : s.pc with
    | add =>
      rw [hpc] at hm
      by_cases hneg : wgAdd s.wg s.n < 0
      · simp only [if_pos hneg, Option.some.injEq] at hm
        subst hm
        exact absurd hinv2.2.2.1 (by simp)
      · simp only [if_neg hneg, Option.some.injEq] at hm
        subst hm
        simp only [LoopState.remaining, hpc]
        omega
    | loop =>
      rw [hpc] at hm
      by_cases hlt : s.i < s.n
      · simp only [if_pos hlt, Option.some.injEq] at hm
        subst hm
        simp only [LoopState.remaining, hpc, List.map_append, List.sum_append, List.map_cons,
          List.map_nil, List.sum_cons, List.sum_nil]
        have r2 : WorkerPc.print.remaining = 2 := rfl
        rw [r2]
        omega
      · simp only [if_neg hlt, Option.some.injEq] at hm
        subst hm
        simp only [LoopState.remaining, hpc]
        omega
    | wait =>
      rw [hpc] at hm
      by_cases hz : s.wg = 0
      · simp only [if_pos hz, Option.some.injEq] at hm
        subst hm
        simp only [LoopState.remaining, hpc]
        omega
      · simp only [if_neg hz] at hm
        cases hm
    | returned => exact absurd hpc hnr
  · obtain ⟨w, hkw, hcase⟩ := LoopState.workerStep_cases s s2 k hw
    have r2 : WorkerPc.print.remaining = 2 := rfl
    have r1 : WorkerPc.signal.remaining = 1 := rfl
    have r0 : WorkerPc.finished.remaining = 0 := rfl
    rcases hcase with ⟨hpc, rfl⟩ | ⟨hpc, hneg, rfl⟩ | ⟨hpc, hneg, rfl⟩
    · have hsum : ((s.workers.set k ⟨w.j, WorkerPc.signal⟩).map (fun w => w.pc.remaining)).sum
          + w.pc.remaining
          = (s.workers.map (fun w => w.pc.remaining)).sum + WorkerPc.signal.remaining :=
        sum_map_set_lookup (fun w => w.pc.remaining) s.workers k w _ hkw
      rw [hpc, r2, r1] at hsum
      simp only [LoopState.remaining]
      omega
    · exact absurd hinv2.2.2.1 (by simp)
    · have hsum : ((s.workers.set k ⟨w.j, WorkerPc.finished⟩).map (fun w => w.pc.remaining)).sum
          + w.pc.remaining
          = (s.workers.map (fun w => w.pc.remaining)).sum + WorkerPc.finished.remaining :=
        sum_map_set_lookup (fun w => w.pc.remaining) s.workers k w _ hkw
      rw [hpc, r1, r0] at hsum
      simp only [LoopState.remaining]
      omega

theorem LoopState.loop_enabled (n : Nat) (s : LoopState) (hinv : LoopInv n s)
    (hnr : s.pc ≠ MainPc.returned) : ∃ tid s2, s.step tid = some s2 := by
  have hle := LoopInv_doneCount_le n s hinv
  obtain ⟨hb, hn, hp, hile, hlen, hadd, hwg, hfin, hret, hidx, hcnt⟩ := hinv
  have hguard : ¬ (s.panicked = true ∨ s.pc = MainPc.returned) := by
    rintro (h | h)
    · rw [hp] at h; cases h
    · exact hnr h
  cases hpc : s.pc with
  | add =>
    by_cases hneg : wgAdd s.wg s.n < 0
    · exact ⟨none, by simp [LoopState.step, hp, hpc, LoopState.mainStep, hneg]⟩
    · exact ⟨none, by simp [LoopState.step, hp, hpc, LoopState.mainStep, hneg]⟩
  | loop =>
    by_cases hlt : s.i < s.n
    · exact ⟨none, by simp [LoopState.step, hp, hpc, LoopState.mainStep, hlt]⟩
    · exact ⟨none, by simp [LoopState.step, hp, hpc, LoopState.mainStep, hlt]⟩
  | wait =>
    by_cases hz : s.wg = 0
    · exact ⟨none, by simp [LoopState.step, hp, hpc, LoopState.mainStep, hz]⟩
    · have hw1 := hwg (by rw [hpc]; intro e; cases e)
      have hin := hfin (Or.inl hpc)
      have hlt : List.countP (fun w => w.pc == WorkerPc.finished) s.workers
          < s.workers.length := by
        unfold LoopState.doneCount at hw1 hle
        omega
      have hex : ∃ w ∈ s.workers, ¬ (w.pc == WorkerPc.finished) = true := by
        by_contra hcon
        push_neg at hcon
        have := List.countP_eq_length.2 hcon
        omega
      obtain ⟨w, hm, hwf⟩ := hex
      obtain ⟨k, hk⟩ := List.mem_iff_getElem?.1 hm
      simp only [beq_iff_eq] at hwf
      cases hwpc : w.pc with
      | print =>
        exact ⟨some k, by simp [LoopState.step, hp, hpc, LoopState.workerStep, hk, hwpc]⟩
      | signal =>
        by_cases hneg : wgAdd s.wg (-1) < 0
        · exact ⟨some k, by simp [LoopState.step, hp, hpc, LoopState.workerStep, hk, hwpc, hneg]⟩
        · exact ⟨some k, by simp [LoopState.step, hp, hpc, LoopState.workerStep, hk, hwpc, hneg]⟩
      | finished => exact absurd hwpc hwf
  | returned => exact absurd hpc hnr

theorem loopSchedule_exec :
    exec LoopState.step (LoopState.init 5) loopSchedule = some loopFinal := by
  decide

/-- C5 (counterexample): for `n = 2^31` the claim fails. `wg.Add(n)` wraps the
`int32` counter of the `WaitGroup` to `-2^31` and panics; after that no task can
act, so no goroutine is spawned and no index is ever reported. -/
theorem C5_add_overflow_counterexample :
    LoopState.step (LoopState.init 2147483648) none
      = some ⟨2147483648, 0, MainPc.add, -2147483648, [], [], true⟩ ∧
    (∀ tid, LoopState.step ⟨2147483648, 0, MainPc.add, -2147483648, [], [], true⟩ tid = none) ∧
    ¬ (0 ≤ (⟨2147483648, 0, MainPc.add, -2147483648, [], [], true⟩ : LoopState).wg) ∧
    ¬ ((⟨2147483648, 0, MainPc.add, -2147483648, [], [], true⟩ : LoopState).out.Perm
        (List.range 2147483648)) := by
  refine ⟨by decide, ?_, by decide, ?_⟩
  · intro tid
    simp [LoopState.step]
  · intro hperm
    have hlen := hperm.length_eq
    simp at hlen

/-- C5 (amended): for every `n` below `2^31`, in every state the program can
reach, whatever the order in which the goroutines run: the goroutine spawned
`k`-th holds `j = k`; no number is printed twice and only numbers below `n` are
printed; once all `n` goroutines have called `Done`, the numbers printed are
exactly `0 .. n-1`, each once; after `Add(n)` the counter is `n` minus the number
of `Done` calls, never negative (no panic), and zero exactly when all `n`
goroutines have called `Done`; `main` returns only then; some task can act until
`main` has returned, and each action uses up one of the finitely many remaining
ones. -/
theorem C5_each_index_once (n : Nat) (hb : n < 2147483648) (s : LoopState)
    (hr : Reach LoopState.step (LoopState.init n) s) :
    (∀ (k : Nat) (w : Worker), s.workers[k]? = some w → w.j = k) ∧
    (∀ x, s.out.count x ≤ 1) ∧ (∀ x ∈ s.out, x < n) ∧
    (s.doneCount = n → s.out.Perm (List.range n)) ∧
    s.panicked = false ∧
    (s.pc ≠ MainPc.add →
      s.wg = (n : Int) - (s.doneCount : Int) ∧ 0 ≤ s.wg ∧ (s.wg = 0 ↔ s.doneCount = n)) ∧
    (s.pc = MainPc.returned → s.doneCount = n ∧ s.out.Perm (List.range n)) ∧
    (s.pc ≠ MainPc.returned → ∃ tid s2, s.step tid = some s2) ∧
    (∀ tid s2, s.step tid = some s2 → s2.remaining + 1 = s.remaining) := by
  have hinv := LoopInv_reach n hb s hr
  have hle := LoopInv_doneCount_le n s hinv
  have hout := LoopInv_out n s hinv
  refine ⟨hinv.2.2.2.2.2.2.2.2.2.1, hout.1, hout.2, LoopInv_all_done n s hinv, hinv.2.2.1,
    ?_, ?_, LoopState.loop_enabled n s hinv,
    fun tid s2 h => LoopState.loop_step_remaining n s s2 tid hinv h⟩
  · intro hne
    have hw := hinv.2.2.2.2.2.2.1 hne
    refine ⟨hw, by omega, ?_⟩
    constructor
    · intro h0; omega
    · intro hd; omega
  · intro hret
    have hd := hinv.2.2.2.2.2.2.2.2.1 hret
    exact ⟨hd, LoopInv_all_done n s hinv hd⟩

theorem C5_each_index_once_witness :
    (5 : Nat) < 2147483648 ∧
    Reach LoopState.step (LoopState.init 5) loopFinal ∧
    loopFinal.out = [2, 0, 1, 4, 3] ∧
    loopFinal.out.Perm (List.range 5) ∧ List.range 5 = [0, 1, 2, 3, 4] ∧ loopFinal.wg = 0 :=
  have hreach : Reach LoopState.step (LoopState.init 5) loopFinal :=
    Reach.of_exec loopSchedule (LoopState.init 5) (LoopState.init 5) loopFinal Reach.init
      loopSchedule_exec
  ⟨by decide, hreach, rfl,
    ((C5_each_index_once 5 (by decide) loopFinal hreach).2.2.2.2.2.2.1 rfl).2, rfl, rfl⟩

/-! ### Send, receive, close on the unbuffered channel -/

theorem SyncInv_init {α : Type} (p : α) : SyncInv p (SyncState.init α) := by
  refine ⟨rfl, fun _ => ⟨rfl, rfl, rfl⟩, ?_, ?_, ?_⟩ <;> intro h <;> cases h

theorem SyncInv_step {α : Type} [Inhabited α] (p : α) (s s2 : SyncState α) (tid : SyncTid)
    (hinv : SyncInv p s) (h : s.step p tid = some s2) : SyncInv p s2 := by
  obtain ⟨mpc, spc, cl, rc, ft⟩ := s
  obtain ⟨hf, h1, h2, h3, h4⟩ := hinv
  simp only at hf h1 h2 h3 h4
  subst hf
  cases mpc <;> cases tid <;>
    simp [SyncState.step, SyncState.mainStep, SyncState.senderStep, SyncState.handoff] at h
  · obtain ⟨rfl, rfl, rfl⟩ := h1 rfl
    subst h
    simp [SyncInv]
  · obtain ⟨rfl, rfl, rfl⟩ := h1 rfl
    simp at h
  · obtain ⟨rfl, rfl, rfl⟩ := h2 rfl
    simp at h
    subst h
    simp [SyncInv]
  · obtain ⟨rfl, rfl, rfl⟩ := h2 rfl
    simp at h
    subst h
    simp [SyncInv]
  · obtain ⟨hs, rfl, rfl⟩ := h3 rfl
    simp at h
    subst h
    simp [SyncInv, hs]
  · obtain ⟨hs, rfl, rfl⟩ := h3 rfl
    rcases hs with rfl | rfl
    · simp at h
      subst h
      simp [SyncInv]
    · simp at h

theorem SyncInv_reach {α : Type} [Inhabited α] (p : α) (s : SyncState α)
    (h : Reach (SyncState.step p) (SyncState.init α) s) : SyncInv p s :=
  Reach.invariant (SyncInv p) (SyncInv_init p) (SyncInv_step p) h

theorem SyncState.sync_enabled {α : Type} [Inhabited α] (p : α) (s : SyncState α)
    (hinv : SyncInv p s) (hnr : s.mainPc ≠ SyncMainPc.returned) :
    ∃ s2, s.step p SyncTid.main = some s2 := by
  obtain ⟨mpc, spc, cl, rc, ft⟩ := s
  obtain ⟨hf, h1, h2, h3, h4⟩ := hinv
  simp only at hf h1 h2 h3 h4 hnr
  subst hf
  cases mpc
  · simp [SyncState.step, SyncState.mainStep]
  · obtain ⟨rfl, rfl, rfl⟩ := h2 rfl
    simp [SyncState.step, SyncState.mainStep]
  · obtain ⟨hs, rfl, rfl⟩ := h3 rfl
    simp [SyncState.step, SyncState.mainStep]
  · exact absurd rfl hnr

theorem SyncState.sync_step_remaining {α : Type} [Inhabited α] (p : α) (s s2 : SyncState α)
    (tid : SyncTid) (hinv : SyncInv p s) (h : s.step p tid = some s2) :
    s2.remaining + 1 = s.remaining := by
  obtain ⟨mpc, spc, cl, rc, ft⟩ := s
  obtain ⟨hf, h1, h2, h3, h4⟩ := hinv
  simp only at hf h1 h2 h3 h4
  subst hf
  cases mpc <;> cases tid <;>
    simp [SyncState.step, SyncState.mainStep, SyncState.senderStep, SyncState.handoff] at h
  · obtain ⟨rfl, rfl, rfl⟩ := h1 rfl
    subst h
    rfl
  · obtain ⟨rfl, rfl, rfl⟩ := h1 rfl
    simp at h
  · obtain ⟨rfl, rfl, rfl⟩ := h2 rfl
    simp at h
    subst h
    rfl
  · obtain ⟨rfl, rfl, rfl⟩ := h2 rfl
    simp at h
    subst h
    rfl
  · obtain ⟨hs, rfl, rfl⟩ := h3 rfl
    simp at h
    subst h
    rcases hs with rfl | rfl <;> rfl
  · obtain ⟨hs, rfl, rfl⟩ := h3 rfl
    rcases hs with rfl | rfl
    · simp at h
      subst h
      rfl
    · simp at h

/-- C7: in every state the program can reach, whatever the interleaving: no
panic has occurred; once `main` is past its receive it holds exactly the payload
sent and the send is complete; the channel is closed only after the send is
complete; at `close(c)` the channel is still open, so `close` succeeds; `main`
can always take its next action until it has returned, and each action uses up
one of the finitely many remaining ones. -/
theorem C7_receive_then_close (α : Type) [Inhabited α] (p : α) (s : SyncState α)
    (hr : Reach (SyncState.step p) (SyncState.init α) s) :
    s.fault = none ∧
    ((s.mainPc = SyncMainPc.close ∨ s.mainPc = SyncMainPc.returned) →
      s.received = some p ∧ (s.sender = SenderPc.handedOff ∨ s.sender = SenderPc.finished)) ∧
    (s.closed = true → s.sender = SenderPc.handedOff ∨ s.sender = SenderPc.finished) ∧
    (s.mainPc = SyncMainPc.close →
      s.step p SyncTid.main = some ⟨SyncMainPc.returned, s.sender, true, some p, none⟩) ∧
    (s.mainPc ≠ SyncMainPc.returned → ∃ s2, s.step p SyncTid.main = some s2) ∧
    (∀ tid s2, s.step p tid = some s2 → s2.remaining + 1 = s.remaining) := by
  have hinv := SyncInv_reach p s hr
  refine ⟨hinv.1, ?_, ?_, ?_, SyncState.sync_enabled p s hinv,
    fun tid s2 h => SyncState.sync_step_remaining p s s2 tid hinv h⟩
  · intro h
    rcases h with h | h
    · exact ⟨(hinv.2.2.2.1 h).2.2, (hinv.2.2.2.1 h).1⟩
    · exact ⟨(hinv.2.2.2.2 h).2.2, (hinv.2.2.2.2 h).1⟩
  · intro hc
    cases hpc : s.mainPc with
    | spawn => have := (hinv.2.1 hpc).2.1; rw [hc] at this; cases this
    | recv => have := (hinv.2.2.1 hpc).2.1; rw [hc] at this; cases this
    | close => have := (hinv.2.2.2.1 hpc).2.1; rw [hc] at this; cases this
    | returned => exact (hinv.2.2.2.2 hpc).1
  · intro hpc
    obtain ⟨_, hcl, hrc⟩ := hinv.2.2.2.1 hpc
    simp [SyncState.step, SyncState.mainStep, hinv.1, hpc, hcl, hrc]

theorem C7_receive_then_close_witness :
    Reach (SyncState.step ()) (SyncState.init Unit)
      ⟨SyncMainPc.returned, SenderPc.finished, true, some (), none⟩ ∧
    (⟨SyncMainPc.returned, SenderPc.finished, true, some (), none⟩ : SyncState Unit).fault
      = none :=
  have hreach : Reach (SyncState.step ()) (SyncState.init Unit)
      ⟨SyncMainPc.returned, SenderPc.finished, true, some (), none⟩ :=
    Reach.of_exec [SyncTid.main, SyncTid.sender, SyncTid.sender, SyncTid.main]
      (SyncState.init Unit) (SyncState.init Unit) _ Reach.init (by decide)
  ⟨hreach, (C7_receive_then_close Unit () _ hreach).1⟩

/-! ### The two file writers and the channel `res` -/

/-- C8 (evaluation of the code): with both files created, the write to `file1`
failing with "disk full" and the write to `file2` succeeding, there is an
interleaving in which the goroutine of `file1` sends `nil` on `res`, which is not
the result of its own `f1.Write` call but the value `main` stored in the shared
variable `err` by `f2, err := os.Create("file2")`. -/
theorem C8_writer_sends_foreign_value :
    sharedErrOutcomes.writeResult1 = some "disk full" ∧
    (exec (FilesState.step sharedErrOutcomes) FilesState.init sharedErrSchedule).map
        (fun s => s.sentLog) = some [(Sender.writer1, none)] := by
  decide

theorem FilesState.files_step_cases (o : Outcomes) (s s2 : FilesState) (tid : FilesTid)
    (h : s.step o tid = some s2) :
    s.mainPc ≠ FilesMainPc.returned ∧
    ((s.mainPc = FilesMainPc.create1 ∧
      s2 = ⟨FilesMainPc.test1, o.create1, s.w1, s.w2, s.consumer, s.res, s.received, s.sentLog⟩) ∨
    (s.mainPc = FilesMainPc.test1 ∧ s.err ≠ none ∧
      s2 = ⟨FilesMainPc.send1, s.err, s.w1, s.w2, s.consumer, s.res, s.received, s.sentLog⟩) ∨
    (s.mainPc = FilesMainPc.test1 ∧ s.err = none ∧
      s2 = ⟨FilesMainPc.create2, s.err, WriterPc.write, s.w2, s.consumer, s.res, s.received, s.sentLog⟩) ∨
    (s.mainPc = FilesMainPc.send1 ∧ s.res.length < resCap ∧
      s2 = ⟨FilesMainPc.create2, s.err, s.w1, s.w2, s.consumer, s.res ++ [s.err], s.received, s.sentLog ++ [(Sender.main1, s.err)]⟩) ∨
    (s.mainPc = FilesMainPc.create2 ∧
      s2 = ⟨FilesMainPc.test2, o.create2, s.w1, s.w2, s.consumer, s.res, s.received, s.sentLog⟩) ∨
    (s.mainPc = FilesMainPc.test2 ∧ s.err ≠ none ∧
      s2 = ⟨FilesMainPc.send2, s.err, s.w1, s.w2, s.consumer, s.res, s.received, s.sentLog⟩) ∨
    (s.mainPc = FilesMainPc.test2 ∧ s.err = none ∧
      s2 = ⟨FilesMainPc.spawnConsumer, s.err, s.w1, WriterPc.write, s.consumer, s.res, s.received, s.sentLog⟩) ∨
    (s.mainPc = FilesMainPc.send2 ∧ s.res.length < resCap ∧
      s2 = ⟨FilesMainPc.spawnConsumer, s.err, s.w1, s.w2, s.consumer, s.res ++ [s.err], s.received, s.sentLog ++ [(Sender.main2, s.err)]⟩) ∨
    (s.mainPc = FilesMainPc.spawnConsumer ∧
      s2 = ⟨FilesMainPc.sleep, s.err, s.w1, s.w2, true, s.res, s.received, s.sentLog⟩) ∨
    (s.mainPc = FilesMainPc.sleep ∧
      s2 = ⟨FilesMainPc.returned, s.err, s.w1, s.w2, s.consumer, s.res, s.received, s.sentLog⟩) ∨
    (s.w1 = WriterPc.write ∧
      s2 = ⟨s.mainPc, o.writeResult1, WriterPc.send, s.w2, s.consumer, s.res, s.received, s.sentLog⟩) ∨
    (s.w1 = WriterPc.send ∧ s.res.length < resCap ∧
      s2 = ⟨s.mainPc, s.err, WriterPc.close, s.w2, s.consumer, s.res ++ [s.err], s.received, s.sentLog ++ [(Sender.writer1, s.err)]⟩) ∨
    (s.w1 = WriterPc.close ∧
      s2 = ⟨s.mainPc, s.err, WriterPc.finished, s.w2, s.consumer, s.res, s.received, s.sentLog⟩) ∨
    (s.w2 = WriterPc.write ∧
      s2 = ⟨s.mainPc, o.writeResult2, s.w1, WriterPc.send, s.consumer, s.res, s.received, s.sentLog⟩) ∨
    (s.w2 = WriterPc.send ∧ s.res.length < resCap ∧
      s2 = ⟨s.mainPc, s.err, s.w1, WriterPc.close, s.consumer, s.res ++ [s.err], s.received, s.sentLog ++ [(Sender.writer2, s.err)]⟩) ∨
    (s.w2 = WriterPc.close ∧
      s2 = ⟨s.mainPc, s.err, s.w1, WriterPc.finished, s.consumer, s.res, s.received, s.sentLog⟩) ∨
    (s.consumer = true ∧ ∃ v rest, s.res = v :: rest ∧
      s2 = ⟨s.mainPc, s.err, s.w1, s.w2, s.consumer, rest, s.received ++ [v], s.sentLog⟩)) := by
  unfold FilesState.step at h
  by_cases hret : s.mainPc = FilesMainPc.returned
  · rw [if_pos hret] at h; cases h
  rw [if_neg hret] at h
  refine ⟨hret, ?_⟩
  cases tid
  · simp only [FilesState.mainStep] at h
    cases hpc : s.mainPc <;> rw [hpc] at h <;> simp only at h
    · simp only [Option.some.injEq] at h
      exact Or.inl ⟨rfl, h.symm⟩
    · by_cases herr : s.err = none
      · simp only [herr, ne_eq, not_true_eq_false, if_false, Option.some.injEq] at h
        refine Or.inr (Or.inr (Or.inl ⟨rfl, herr, ?_⟩))
        rw [herr]; exact h.symm
      · simp only [ne_eq, herr, not_false_eq_true, if_true, Option.some.injEq] at h
        exact Or.inr (Or.inl ⟨rfl, herr, h.symm⟩)
    · by_cases hlen : s.res.length < resCap
      · simp only [hlen, if_true, Option.some.injEq] at h
        exact Or.inr (Or.inr (Or.inr (Or.inl ⟨rfl, hlen, h.symm⟩)))
      · simp [hlen] at h
    · simp only [Option.some.injEq] at h
      exact Or.inr (Or.inr (Or.inr (Or.inr (Or.inl ⟨rfl, h.symm⟩))))
    · by_cases herr : s.err = none
      · simp only [herr, ne_eq, not_true_eq_false, if_false, Option.some.injEq] at h
        refine Or.inr (Or.inr (Or.inr (Or.inr (Or.inr (Or.inr (Or.inl ⟨rfl, herr, ?_⟩))))))
        rw [herr]; exact h.symm
      · simp only [ne_eq, herr, not_false_eq_true, if_true, Option.some.injEq] at h
        exact Or.inr (Or.inr (Or.inr (Or.inr (Or.inr (Or.inl ⟨rfl, herr, h.symm⟩)))))
    · by_cases hlen : s.res.length < resCap
      · simp only [hlen, if_true, Option.some.injEq] at h
        exact Or.inr (Or.inr (Or.inr (Or.inr (Or.inr (Or.inr (Or.inr (Or.inl ⟨rfl, hlen, h.symm⟩)))))))
      · simp [hlen] at h
    · simp only [Option.some.injEq] at h
      exact Or.inr (Or.inr (Or.inr (Or.inr (Or.inr (Or.inr (Or.inr (Or.inr (Or.inl ⟨rfl, h.symm⟩))))))))
    · simp only [Option.some.injEq] at h
      exact Or.inr (Or.inr (Or.inr (Or.inr (Or.inr (Or.inr (Or.inr (Or.inr (Or.inr (Or.inl ⟨rfl, h.symm⟩)))))))))
    · exact absurd hpc hret
  · simp only [FilesState.writer1Step] at h
    cases hpc : s.w1 <;> rw [hpc] at h <;> simp only at h
    · cases h
    · simp only [Option.some.injEq] at h
      exact Or.inr (Or.inr (Or.inr (Or.inr (Or.inr (Or.inr (Or.inr (Or.inr (Or.inr (Or.inr (Or.inl ⟨rfl, h.symm⟩))))))))))
    · by_cases hlen : s.res.length < resCap
      · simp only [hlen, if_true, Option.some.injEq] at h
        exact Or.inr (Or.inr (Or.inr (Or.inr (Or.inr (Or.inr (Or.inr (Or.inr (Or.inr (Or.inr (Or.inr (Or.inl ⟨rfl, hlen, h.symm⟩)))))))))))
      · simp [hlen] at h
    · simp only [Option.some.injEq] at h
      exact Or.inr (Or.inr (Or.inr (Or.inr (Or.inr (Or.inr (Or.inr (Or.inr (Or.inr (Or.inr (Or.inr (Or.inr (Or.inl ⟨rfl, h.symm⟩))))))))))))
    · cases h
  · simp only [FilesState.writer2Step] at h
    cases hpc : s.w2 <;> rw [hpc] at h <;> simp only at h
    · cases h
    · simp only [Option.some.injEq] at h
      exact Or.inr (Or.inr (Or.inr (Or.inr (Or.inr (Or.inr (Or.inr (Or.inr (Or.inr (Or.inr (Or.inr (Or.inr (Or.inr (Or.inl ⟨rfl, h.symm⟩)))))))))))))
    · by_cases hlen : s.res.length < resCap
      · simp only [hlen, if_true, Option.some.injEq] at h
        exact Or.inr (Or.inr (Or.inr (Or.inr (Or.inr (Or.inr (Or.inr (Or.inr (Or.inr (Or.inr (Or.inr (Or.inr (Or.inr (Or.inr (Or.inl ⟨rfl, hlen, h.symm⟩))))))))))))))
      · simp [hlen] at h
    · simp only [Option.some.injEq] at h
      exact Or.inr (Or.inr (Or.inr (Or.inr (Or.inr (Or.inr (Or.inr (Or.inr (Or.inr (Or.inr (Or.inr (Or.inr (Or.inr (Or.inr (Or.inr (Or.inl ⟨rfl, h.symm⟩)))))))))))))))
    · cases h
  · simp only [FilesState.consumerStep] at h
    by_cases hc : s.consumer = true
    · rw [if_pos hc] at h
      cases hres : s.res with
      | nil => rw [hres] at h; cases h
      | cons v rest =>
        rw [hres] at h
        simp only [Option.some.injEq] at h
        exact Or.inr (Or.inr (Or.inr (Or.inr (Or.inr (Or.inr (Or.inr (Or.inr (Or.inr (Or.inr (Or.inr (Or.inr (Or.inr (Or.inr (Or.inr (Or.inr (⟨hc, v, rest, rfl, h.symm⟩))))))))))))))))
    · rw [if_neg hc] at h
      cases h

theorem cnt_append_single {α : Type} (p : α → Bool) (l : List α) (x : α) :
    (l ++ [x]).countP p = l.countP p + (if p x = true then 1 else 0) := by
  simp [List.countP_append, List.countP_cons]

theorem FilesInv_init : FilesInv FilesState.init := by
  simp [FilesInv, FilesState.init, FilesState.sent, FilesState.count1, FilesState.count2,
    FilesState.sentCount1, FilesState.sentCount2, FilesMainPc.beforeSecond,
    FilesMainPc.afterSecond]

theorem FilesInv_step (o : Outcomes) (s s2 : FilesState) (tid : FilesTid)
    (hinv : FilesInv s) (h : s.step o tid = some s2) : FilesInv s2 := by
  obtain ⟨h1, h2, h3, h4, h5, h6⟩ := hinv
  obtain ⟨hnr, hc⟩ := FilesState.files_step_cases o s s2 tid h
  obtain ⟨mpc, err, w1, w2, con, res, rcv, log⟩ := s
  simp only [FilesState.sent, FilesState.count1, FilesState.count2, FilesState.sentCount1,
    FilesState.sentCount2] at h1 h2 h3 h4 h5 h6 hc hnr
  generalize hc1 : List.countP (fun e => e.1.first) log = c1 at h2
  generalize hc2 : List.countP (fun e => !e.1.first) log = c2 at h3
  have sf1 : Sender.main1.first = true := rfl
  have sf2 : Sender.writer1.first = true := rfl
  have sf3 : Sender.main2.first = false := rfl
  have sf4 : Sender.writer2.first = false := rfl
  rcases hc with
    ⟨hpc, rfl⟩ |
    ⟨hpc, herr, rfl⟩ |
    ⟨hpc, herr, rfl⟩ |
    ⟨hpc, hlen, rfl⟩ |
    ⟨hpc, rfl⟩ |
    ⟨hpc, herr, rfl⟩ |
    ⟨hpc, herr, rfl⟩ |
    ⟨hpc, hlen, rfl⟩ |
    ⟨hpc, rfl⟩ |
    ⟨hpc, rfl⟩ |
    ⟨hpc, rfl⟩ |
    ⟨hpc, hlen, rfl⟩ |
    ⟨hpc, rfl⟩ |
    ⟨hpc, rfl⟩ |
    ⟨hpc, hlen, rfl⟩ |
    ⟨hpc, rfl⟩ |
    ⟨hcon, v, rest, hres, rfl⟩
  · subst hpc
    have e1 := h4 rfl
    have e2 := h5 rfl
    subst e1
    subst e2
    refine ⟨?_, ?_, ?_, ?_, ?_, ?_⟩ <;>
      simp [FilesState.sent, FilesState.count1, FilesState.count2, FilesState.sentCount1,
        FilesState.sentCount2, cnt_append_single, hc1, hc2, sf1, sf2, sf3, sf4, h1,
        FilesMainPc.beforeSecond, FilesMainPc.afterSecond]
        at h2 h3 h4 h5 h6 ⊢ <;>
      omega
  · subst hpc
    have e1 := h4 rfl
    have e2 := h5 rfl
    subst e1
    subst e2
    refine ⟨?_, ?_, ?_, ?_, ?_, ?_⟩ <;>
      simp [FilesState.sent, FilesState.count1, FilesState.count2, FilesState.sentCount1,
        FilesState.sentCount2, cnt_append_single, hc1, hc2, sf1, sf2, sf3, sf4, h1,
        FilesMainPc.beforeSecond, FilesMainPc.afterSecond]
        at h2 h3 h4 h5 h6 ⊢ <;>
      omega
  · subst hpc
    have e1 := h4 rfl
    have e2 := h5 rfl
    subst e1
    subst e2
    refine ⟨?_, ?_, ?_, ?_, ?_, ?_⟩ <;>
      simp [FilesState.sent, FilesState.count1, FilesState.count2, FilesState.sentCount1,
        FilesState.sentCount2, cnt_append_single, hc1, hc2, sf1, sf2, sf3, sf4, h1,
        FilesMainPc.beforeSecond, FilesMainPc.afterSecond]
        at h2 h3 h4 h5 h6 ⊢ <;>
      omega
  · subst hpc
    have e1 := h4 rfl
    have e2 := h5 rfl
    subst e1
    subst e2
    refine ⟨?_, ?_, ?_, ?_, ?_, ?_⟩ <;>
      simp [FilesState.sent, FilesState.count1, FilesState.count2, FilesState.sentCount1,
        FilesState.sentCount2, cnt_append_single, hc1, hc2, sf1, sf2, sf3, sf4, h1,
        FilesMainPc.beforeSecond, FilesMainPc.afterSecond]
        at h2 h3 h4 h5 h6 ⊢ <;>
      omega
  · subst hpc
    have e2 := h5 rfl
    subst e2
    refine ⟨?_, ?_, ?_, ?_, ?_, ?_⟩ <;>
      simp [FilesState.sent, FilesState.count1, FilesState.count2, FilesState.sentCount1,
        FilesState.sentCount2, cnt_append_single, hc1, hc2, sf1, sf2, sf3, sf4, h1,
        FilesMainPc.beforeSecond, FilesMainPc.afterSecond]
        at h2 h3 h4 h5 h6 ⊢ <;>
      omega
  · subst hpc
    have e2 := h5 rfl
    subst e2
    refine ⟨?_, ?_, ?_, ?_, ?_, ?_⟩ <;>
      simp [FilesState.sent, FilesState.count1, FilesState.count2, FilesState.sentCount1,
        FilesState.sentCount2, cnt_append_single, hc1, hc2, sf1, sf2, sf3, sf4, h1,
        FilesMainPc.beforeSecond, FilesMainPc.afterSecond]
        at h2 h3 h4 h5 h6 ⊢ <;>
      omega
  · subst hpc
    have e2 := h5 rfl
    subst e2
    refine ⟨?_, ?_, ?_, ?_, ?_, ?_⟩ <;>
      simp [FilesState.sent, FilesState.count1, FilesState.count2, FilesState.sentCount1,
        FilesState.sentCount2, cnt_append_single, hc1, hc2, sf1, sf2, sf3, sf4, h1,
        FilesMainPc.beforeSecond, FilesMainPc.afterSecond]
        at h2 h3 h4 h5 h6 ⊢ <;>
      omega
  · subst hpc
    have e2 := h5 rfl
    subst e2
    refine ⟨?_, ?_, ?_, ?_, ?_, ?_⟩ <;>
      simp [FilesState.sent, FilesState.count1, FilesState.count2, FilesState.sentCount1,
        FilesState.sentCount2, cnt_append_single, hc1, hc2, sf1, sf2, sf3, sf4, h1,
        FilesMainPc.beforeSecond, FilesMainPc.afterSecond]
        at h2 h3 h4 h5 h6 ⊢ <;>
      omega
  · subst hpc
    refine ⟨?_, ?_, ?_, ?_, ?_, ?_⟩ <;>
      simp [FilesState.sent, FilesState.count1, FilesState.count2, FilesState.sentCount1,
        FilesState.sentCount2, cnt_append_single, hc1, hc2, sf1, sf2, sf3, sf4, h1,
        FilesMainPc.beforeSecond, FilesMainPc.afterSecond]
        at h2 h3 h4 h5 h6 ⊢ <;>
      omega
  · subst hpc
    refine ⟨?_, ?_, ?_, ?_, ?_, ?_⟩ <;>
      simp [FilesState.sent, FilesState.count1, FilesState.count2, FilesState.sentCount1,
        FilesState.sentCount2, cnt_append_single, hc1, hc2, sf1, sf2, sf3, sf4, h1,
        FilesMainPc.beforeSecond, FilesMainPc.afterSecond]
        at h2 h3 h4 h5 h6 ⊢ <;>
      first | omega | assumption
  · subst hpc
    have hm : mpc.beforeSecond = false := by
      cases hbs : mpc.beforeSecond with
      | false => rfl
      | true => have := h4 hbs; cases this
    refine ⟨?_, ?_, ?_, ?_, ?_, ?_⟩ <;>
      simp [FilesState.sent, FilesState.count1, FilesState.count2, FilesState.sentCount1,
        FilesState.sentCount2, cnt_append_single, hc1, hc2, sf1, sf2, sf3, sf4, h1,
        hm]
        at h2 h3 h4 h5 h6 ⊢ <;>
      first | omega | assumption
  · subst hpc
    have hm : mpc.beforeSecond = false := by
      cases hbs : mpc.beforeSecond with
      | false => rfl
      | true => have := h4 hbs; cases this
    refine ⟨?_, ?_, ?_, ?_, ?_, ?_⟩ <;>
      simp [FilesState.sent, FilesState.count1, FilesState.count2, FilesState.sentCount1,
        FilesState.sentCount2, cnt_append_single, hc1, hc2, sf1, sf2, sf3, sf4, h1,
        hm]
        at h2 h3 h4 h5 h6 ⊢ <;>
      first | omega | assumption
  · subst hpc
    have hm : mpc.beforeSecond = false := by
      cases hbs : mpc.beforeSecond with
      | false => rfl
      | true => have := h4 hbs; cases this
    refine ⟨?_, ?_, ?_, ?_, ?_, ?_⟩ <;>
      simp [FilesState.sent, FilesState.count1, FilesState.count2, FilesState.sentCount1,
        FilesState.sentCount2, cnt_append_single, hc1, hc2, sf1, sf2, sf3, sf4, h1,
        hm]
        at h2 h3 h4 h5 h6 ⊢ <;>
      first | omega | assumption
  · subst hpc
    have hm : mpc.afterSecond = true := by
      cases hbs : mpc.afterSecond with
      | true => rfl
      | false => have := h5 hbs; cases this
    refine ⟨?_, ?_, ?_, ?_, ?_, ?_⟩ <;>
      simp [FilesState.sent, FilesState.count1, FilesState.count2, FilesState.sentCount1,
        FilesState.sentCount2, cnt_append_single, hc1, hc2, sf1, sf2, sf3, sf4, h1,
        hm]
        at h2 h3 h4 h5 h6 ⊢ <;>
      first | omega | assumption
  · subst hpc
    have hm : mpc.afterSecond = true := by
      cases hbs : mpc.afterSecond with
      | true => rfl
      | false => have := h5 hbs; cases this
    refine ⟨?_, ?_, ?_, ?_, ?_, ?_⟩ <;>
      simp [FilesState.sent, FilesState.count1, FilesState.count2, FilesState.sentCount1,
        FilesState.sentCount2, cnt_append_single, hc1, hc2, sf1, sf2, sf3, sf4, h1,
        hm]
        at h2 h3 h4 h5 h6 ⊢ <;>
      first | omega | assumption
  · subst hpc
    have hm : mpc.afterSecond = true := by
      cases hbs : mpc.afterSecond with
      | true => rfl
      | false => have := h5 hbs; cases this
    refine ⟨?_, ?_, ?_, ?_, ?_, ?_⟩ <;>
      simp [FilesState.sent, FilesState.count1, FilesState.count2, FilesState.sentCount1,
        FilesState.sentCount2, cnt_append_single, hc1, hc2, sf1, sf2, sf3, sf4, h1,
        hm]
        at h2 h3 h4 h5 h6 ⊢ <;>
      first | omega | assumption
  · subst hres
    refine ⟨?_, ?_, ?_, ?_, ?_, ?_⟩ <;>
      simp [FilesState.sent, FilesState.count1, FilesState.count2, FilesState.sentCount1,
        FilesState.sentCount2, cnt_append_single, hc1, hc2, sf1, sf2, sf3, sf4, h1]
        at h2 h3 h4 h5 h6 ⊢ <;>
      first | omega | assumption

theorem FilesInv_reach (o : Outcomes) (s : FilesState)
    (h : Reach (FilesState.step o) FilesState.init s) : FilesInv s :=
  Reach.invariant FilesInv FilesInv_init (FilesInv_step o) h

theorem length_eq_countP_add (α : Type) (p : α → Bool) (l : List α) :
    l.length = l.countP p + l.countP (fun a => !p a) := by
  induction l with
  | nil => rfl
  | cons x xs ih =>
    cases hx : p x <;> simp [List.countP_cons, hx, ih] <;> omega

theorem FilesState.sent1_length (s : FilesState) : s.sent1.length = s.count1 := by
  simp [FilesState.sent1, FilesState.count1, List.countP_eq_length_filter]

theorem FilesState.sent2_length (s : FilesState) : s.sent2.length = s.count2 := by
  simp [FilesState.sent2, FilesState.count2, List.countP_eq_length_filter]

theorem FilesState.sentCount1_le (s : FilesState) : s.sentCount1 ≤ 1 := by
  unfold FilesState.sentCount1
  cases s.w1 <;> simp only [] <;> try omega
  split <;> omega

theorem FilesState.sentCount2_le (s : FilesState) : s.sentCount2 ≤ 1 := by
  unfold FilesState.sentCount2
  cases s.w2 <;> simp only [] <;> try omega
  split <;> omega

theorem FilesInv_bounds (s : FilesState) (hinv : FilesInv s) :
    s.received.length + s.res.length = s.count1 + s.count2 ∧
    s.count1 = s.sentCount1 ∧ s.count2 = s.sentCount2 ∧
    s.sentCount1 ≤ 1 ∧ s.sentCount2 ≤ 1 := by
  obtain ⟨h1, h2, h3, _⟩ := hinv
  refine ⟨?_, h2, h3, s.sentCount1_le, s.sentCount2_le⟩
  have hl := congrArg List.length h1
  simp only [FilesState.sent, List.length_map, List.length_append] at hl
  have := length_eq_countP_add _ (fun e : Sender × GoError => e.1.first) s.sentLog
  unfold FilesState.count1 FilesState.count2
  omega

theorem FilesInv_capacity (s : FilesState) (hinv : FilesInv s) :
    s.res.length ≤ resCap ∧
    (s.w1 = WriterPc.send → s.res.length < resCap) ∧
    (s.w2 = WriterPc.send → s.res.length < resCap) ∧
    (s.mainPc = FilesMainPc.send1 → s.res.length < resCap) ∧
    (s.mainPc = FilesMainPc.send2 → s.res.length < resCap) := by
  obtain ⟨hb1, hb2, hb3, hb4, hb5⟩ := FilesInv_bounds s hinv
  obtain ⟨h1, h2, h3, h4, h5, h6⟩ := hinv
  unfold resCap
  refine ⟨by omega, ?_, ?_, ?_, ?_⟩
  · intro hw
    have : s.sentCount1 = 0 := by simp [FilesState.sentCount1, hw]
    omega
  · intro hw
    have : s.sentCount2 = 0 := by simp [FilesState.sentCount2, hw]
    omega
  · intro hm
    have hbs : s.mainPc.beforeSecond = true := by rw [hm]; rfl
    have hw := h4 hbs
    have : s.sentCount1 = 0 := by simp [FilesState.sentCount1, hw, hbs]
    omega
  · intro hm
    have hbs : s.mainPc.afterSecond = false := by rw [hm]; rfl
    have hw := h5 hbs
    have : s.sentCount2 = 0 := by simp [FilesState.sentCount2, hw, hbs]
    omega

theorem FilesInv_quiescent (s : FilesState) (hinv : FilesInv s) (hq : s.quiescent = true) :
    s.sent1.length = 1 ∧ s.sent2.length = 1 ∧ s.received = s.sent ∧ s.res = [] := by
  obtain ⟨h1, h2, h3, h4, h5, h6⟩ := hinv
  simp only [FilesState.quiescent, Bool.and_eq_true, Bool.or_eq_true, beq_iff_eq,
    List.isEmpty_iff] at hq
  obtain ⟨⟨⟨hpc, hw1⟩, hw2⟩, hres⟩ := hq
  have hbs : s.mainPc.beforeSecond = false := by
    rcases hpc with hpc | hpc <;> rw [hpc] <;> rfl
  have has : s.mainPc.afterSecond = true := by
    rcases hpc with hpc | hpc <;> rw [hpc] <;> rfl
  refine ⟨?_, ?_, ?_, hres⟩
  · rw [FilesState.sent1_length, h2]
    rcases hw1 with hw1 | hw1 <;> simp [FilesState.sentCount1, hw1, hbs]
  · rw [FilesState.sent2_length, h3]
    rcases hw2 with hw2 | hw2 <;> simp [FilesState.sentCount2, hw2, has]
  · rw [h1, hres]
    simp

/-- The two-file program, whatever the results of the `Create` and `Write` calls
and whatever the interleaving: at most one value has been sent for each file;
the values sent are, in order, the values received followed by the values in
the buffer; the buffer never holds more than 2 values, and a task standing at a
send can perform it; and in a state where the writing goroutines that were
spawned have finished and the buffer is empty while `main` sleeps or has
returned, exactly one value has been sent for each file and the values
received are exactly the values sent. -/
theorem files_safety (o : Outcomes) (s : FilesState)
    (hr : Reach (FilesState.step o) FilesState.init s) :
    s.sent1.length ≤ 1 ∧ s.sent2.length ≤ 1 ∧
    s.sent.length = s.sent1.length + s.sent2.length ∧
    s.sent = s.received ++ s.res ∧
    s.res.length ≤ resCap ∧
    (s.w1 = WriterPc.send → s.res.length < resCap) ∧
    (s.w2 = WriterPc.send → s.res.length < resCap) ∧
    (s.mainPc = FilesMainPc.send1 → s.res.length < resCap) ∧
    (s.mainPc = FilesMainPc.send2 → s.res.length < resCap) ∧
    (s.quiescent = true →
      s.sent1.length = 1 ∧ s.sent2.length = 1 ∧ s.sent.length = 2 ∧
      s.received = s.sent) := by
  have hinv := FilesInv_reach o s hr
  obtain ⟨hb1, hb2, hb3, hb4, hb5⟩ := FilesInv_bounds s hinv
  obtain ⟨hcap, hs1, hs2, hm1, hm2⟩ := FilesInv_capacity s hinv
  have hlen : s.sent.length = s.sent1.length + s.sent2.length := by
    rw [FilesState.sent1_length, FilesState.sent2_length]
    have := congrArg List.length hinv.1
    simp only [List.length_append] at this
    omega
  refine ⟨by rw [FilesState.sent1_length]; omega, by rw [FilesState.sent2_length]; omega,
    hlen, hinv.1, hcap, hs1, hs2, hm1, hm2, ?_⟩
  intro hq
  obtain ⟨q1, q2, q3, _⟩ := FilesInv_quiescent s hinv hq
  exact ⟨q1, q2, by omega, q3⟩

/-- C6 (evaluation of the code): with both files created and both writes
succeeding there is a run in which the sleep of `main` ends while the goroutine
of `file1` is still in its write and the `range` loop has received nothing:
`main` returns, the process exits and no task can act any more. In that run no
value is ever sent for `file1`, one value only is sent in all, and the value
sent for `file2` is never received. -/
theorem C6_main_returns_before_delivery :
    exec (FilesState.step allOkOutcomes) FilesState.init earlyExitSchedule
      = some earlyExitFinal ∧
    (∀ tid, earlyExitFinal.step allOkOutcomes tid = none) ∧
    earlyExitFinal.sent1 = [] ∧ earlyExitFinal.sent2 = [none] ∧
    earlyExitFinal.sent.length = 1 ∧
    earlyExitFinal.received = [] ∧ ¬ earlyExitFinal.received.Perm earlyExitFinal.sent := by
  refine ⟨by decide, ?_, by decide, by decide, by decide, by decide, ?_⟩
  · intro tid
    simp [FilesState.step, earlyExitFinal]
  · intro hperm
    have hlen := hperm.length_eq
    simp [earlyExitFinal, FilesState.sent] at hlen

end DataRace
